import Mathlib

/-!
# Verification of the pdf-summariser job pipeline and entity extraction

Shallow embedding of the core of `gcc2000-hw/pdf-summariser`:

* `app/processors/entity_filters.py`  — `EntityFilter`
* `app/processors/entity_extractor.py` — `EntityExtractor` (regex passes, spaCy
  pass modelled as an oracle, deduplication)
* `app/processors/llm_service.py`     — `OpenAIService.summarize`,
  `HuggingFaceService.summarize` (remote calls modelled as oracles)
* `app/processors/job_manager.py`     — `Job`, `JobManager`
* `app/api/routes.py`                 — `process_pdf`, `process_pdf_background`

Python machine details are embedded explicitly: string truthiness, `str.strip`,
dict insertion order, and the backtracking semantics of the `re` module for the
concrete patterns the extractor compiles.  Wall-clock times are modelled as
abstract `Nat` ticks supplied by the caller at each operation that stamps a
timestamp.
-/

/-! ## Python string primitives -/

/-- The characters Python's `str.strip()` (no argument) removes, restricted to
the ASCII whitespace characters: space, tab, newline, carriage return,
vertical tab, form feed. -/
def isPyWS (c : Char) : Bool :=
  c = ' ' || c = '\t' || c = '\n' || c = '\x0d' || c = '\x0b' || c = '\x0c'

/-- `str.strip()` on a character list. -/
def pyStripList (s : List Char) : List Char :=
  ((s.dropWhile isPyWS).reverse.dropWhile isPyWS).reverse

/-- `str.strip()`. -/
def pyStrip (s : String) : String :=
  String.mk (pyStripList s.data)

/-- Python truthiness of an `Optional[str]`: `None` and `""` are falsy. -/
def pyTruthyStr : Option String → Bool
  | none => false
  | some s => !(s = "")

/-- Python truthiness of an `Optional[int]`: `None` and `0` are falsy. -/
def pyTruthyNat : Option Nat → Bool
  | none => false
  | some n => !(n = 0)

/-- `str.lower()` (ASCII letters; the source only feeds ASCII text through it). -/
def pyLowerList (s : List Char) : List Char := s.map Char.toLower

/-- `str.upper()` (ASCII letters). -/
def pyUpperList (s : List Char) : List Char := s.map Char.toUpper

/-- `str.isdigit()` on ASCII text: nonempty and all characters are digits. -/
def pyIsDigit (s : List Char) : Bool :=
  !(s = []) && s.all Char.isDigit

/-- Containment of `small` in `big` as a contiguous substring
(Python's `in` operator on strings). -/
def listIsInfix (small big : List Char) : Bool :=
  (List.range (big.length + 1)).any (fun i => small.isPrefixOf (big.drop i))

/-! ## A backtracking regex engine

Embeds the fragment of Python's `re` module used by
`EntityExtractor._compile_patterns`: character classes, literals
(case-sensitive and case-insensitive), concatenation, alternation,
greedy `?` / `*` / `{m,n}`, and the word boundary `\b`.  Match results are
returned in Python's backtracking preference order (leftmost alternative
first, greedy repetitions longest first), so the head of the result list is
the match `re` would produce. -/

inductive RE where
  | eps
  | nul
  | cls (p : Char → Bool)
  | lit (s : List Char)
  | liti (s : List Char)
  | seq (a b : RE)
  | alt (a b : RE)
  | opt (a : RE)
  | star (a : RE)
  | rep (a : RE) (lo hi : Nat)
  | wb

/-- A word character for `\b`: `[A-Za-z0-9_]`. -/
def isWordChar (c : Char) : Bool := c.isAlphanum || c = '_'

/-- Word-boundary test given the previously consumed character and the rest of
the input. -/
def wbHolds (prev : Option Char) (s : List Char) : Bool :=
  let a := match prev with | some c => isWordChar c | none => false
  let b := match s with | c :: _ => isWordChar c | [] => false
  a != b

/-- Match a literal (optionally case-insensitively); returns the remaining
input and the last consumed character. -/
def litMatch (ci : Bool) : List Char → Option Char → List Char →
    Option (Option Char × List Char)
  | [], prev, s => some (prev, s)
  | p :: ps, _, c :: s =>
      if (if ci then c.toLower = p.toLower else c = p) then
        litMatch ci ps (some c) s
      else none
  | _ :: _, _, [] => none

/-- All ways to match regex `r` at the start of `s`, as pairs of
(last consumed character, remaining input), in backtracking preference
order.  `fuel` bounds the recursion depth (structurally, so that the
definition evaluates by kernel reduction); every recursive call spends one
unit, and `matchFuel` below always supplies enough for the derivations the
patterns of this program can produce. -/
def matchRE : Nat → RE → Option Char → List Char →
    List (Option Char × List Char)
  | 0, _, _, _ => []
  | _ + 1, .eps, prev, s => [(prev, s)]
  | _ + 1, .nul, _, _ => []
  | _ + 1, .cls p, prev, s =>
      match s with
      | [] => []
      | c :: rest => if p c then [(some c, rest)] else (let _ := prev; [])
  | _ + 1, .lit l, prev, s =>
      match litMatch false l prev s with
      | some pr => [pr]
      | none => []
  | _ + 1, .liti l, prev, s =>
      match litMatch true l prev s with
      | some pr => [pr]
      | none => []
  | fuel + 1, .seq a b, prev, s =>
      (matchRE fuel a prev s).flatMap (fun pr => matchRE fuel b pr.1 pr.2)
  | fuel + 1, .alt a b, prev, s =>
      matchRE fuel a prev s ++ matchRE fuel b prev s
  | fuel + 1, .opt a, prev, s => matchRE fuel a prev s ++ [(prev, s)]
  | fuel + 1, .star a, prev, s =>
      ((matchRE fuel a prev s).flatMap (fun pr =>
          if pr.2.length < s.length then matchRE fuel (.star a) pr.1 pr.2
          else []))
      ++ [(prev, s)]
  | fuel + 1, .rep a lo hi, prev, s =>
      if hi = 0 then (if lo = 0 then [(prev, s)] else [])
      else
        ((matchRE fuel a prev s).flatMap (fun pr =>
            matchRE fuel (.rep a (lo - 1) (hi - 1)) pr.1 pr.2))
        ++ (if lo = 0 then [(prev, s)] else [])
  | _ + 1, .wb, prev, s => if wbHolds prev s then [(prev, s)] else []

/-- Size measure of a regex, counting bounded repetitions. -/
def reSize : RE → Nat
  | .eps => 1
  | .nul => 1
  | .cls _ => 1
  | .lit _ => 1
  | .liti _ => 1
  | .seq a b => reSize a + reSize b + 1
  | .alt a b => reSize a + reSize b + 1
  | .opt a => reSize a + 1
  | .star a => reSize a + 1
  | .rep a _ hi => reSize a + hi + 1
  | .wb => 1

/-- Enough fuel for any derivation of `r` over `s`: nesting through the
regex costs at most its size per input position, and each `star` iteration
consumes at least one character. -/
def matchFuel (r : RE) (s : List Char) : Nat :=
  (reSize r + 2) * (s.length + 2)

/-- `re.finditer`: scan left to right; at each position take the engine's
preferred match; matches do not overlap.  Returns the matched texts in
order.  (`prev` is the character just before the current position, for
`\b`; the structural `fuel` is one per scan position.) -/
def findFrom : Nat → RE → Option Char → List Char → List (List Char)
  | 0, _, _, _ => []
  | fuel + 1, r, prev, s =>
    match (matchRE (matchFuel r s) r prev s).head? with
    | some (p, rest) =>
        if s.length - rest.length = 0 then
          match s with
          | [] => []
          | c :: tail => findFrom fuel r (some c) tail
        else
          (s.take (s.length - rest.length)) ::
            findFrom fuel r p (s.drop (s.length - rest.length))
    | none =>
        match s with
        | [] => []
        | c :: tail => findFrom fuel r (some c) tail

/-- All matches of `r` in `text` (the embedding of
`pattern.finditer(text)`), as strings. -/
def findIter (r : RE) (text : String) : List String :=
  (findFrom (text.data.length + 1) r none text.data).map String.mk

/-! ## The compiled patterns of `EntityExtractor._compile_patterns` -/

def reSeqList (l : List RE) : RE := l.foldr .seq .eps

def reAltList (l : List RE) : RE := l.foldr .alt .nul

def chDigit : RE := .cls Char.isDigit

def chWS : RE := .cls isPyWS

def rePlus (r : RE) : RE := .seq r (.star r)

/-- One month alternative of the first date pattern:
`Xxx(?:rest)?`, case-insensitive. -/
def monthAlt (short : String) (rest : String) : RE :=
  .seq (.liti short.data) (.opt (.liti rest.data))

/-- `Jan(?:uary)?|Feb(?:ruary)?|...` -/
def monthNamesRE : RE :=
  reAltList
    [monthAlt "jan" "uary", monthAlt "feb" "ruary", monthAlt "mar" "ch",
     monthAlt "apr" "il", .liti "may".data, monthAlt "jun" "e",
     monthAlt "jul" "y", monthAlt "aug" "ust", monthAlt "sep" "tember",
     monthAlt "oct" "ober", monthAlt "nov" "ember", monthAlt "dec" "ember"]

/-- Date pattern 1 (re.IGNORECASE):
`\b(?:Jan(?:uary)?|...)\s+\d{1,2}(?:st|nd|rd|th)?,?\s+\d{4}\b`. -/
def datePattern1 : RE :=
  reSeqList
    [.wb, monthNamesRE, rePlus chWS, .rep chDigit 1 2,
     .opt (reAltList [.liti "st".data, .liti "nd".data, .liti "rd".data,
                      .liti "th".data]),
     .opt (.lit [',']), rePlus chWS, .rep chDigit 4 4, .wb]

/-- Date pattern 2: `\b\d{1,2}` sep `\d{1,2}` sep `\d{2,4}\b`, where sep is
the character class of `-` and `/`. -/
def datePattern2 : RE :=
  reSeqList
    [.wb, .rep chDigit 1 2, .cls (fun c => c = '-' || c = '/'),
     .rep chDigit 1 2, .cls (fun c => c = '-' || c = '/'),
     .rep chDigit 2 4, .wb]

/-- Date pattern 3: `\b\d{4}-\d{2}-\d{2}\b`. -/
def datePattern3 : RE :=
  reSeqList
    [.wb, .rep chDigit 4 4, .lit ['-'], .rep chDigit 2 2, .lit ['-'],
     .rep chDigit 2 2, .wb]

def datePatterns : List RE := [datePattern1, datePattern2, datePattern3]

/-- Money pattern 1: `\$\s*\d{1,3}(?:,\d{3})*(?:\.\d{2})?`. -/
def moneyPattern1 : RE :=
  reSeqList
    [.lit ['$'], .star chWS, .rep chDigit 1 3,
     .star (reSeqList [.lit [','], .rep chDigit 3 3]),
     .opt (reSeqList [.lit ['.'], .rep chDigit 2 2])]

/-- Money pattern 2: `\b\d+(?:\.\d+)?%`. -/
def moneyPattern2 : RE :=
  reSeqList
    [.wb, rePlus chDigit, .opt (reSeqList [.lit ['.'], rePlus chDigit]),
     .lit ['%']]

def moneyPatterns : List RE := [moneyPattern1, moneyPattern2]

/-! ## `EntityExtractor._parse_date`

`_parse_date` first removes every comma (`date_str.replace(',', '')`) and
then tries `datetime.strptime` with the five layouts
`"%b %d %Y"`, `"%B %d, %Y"`, `"%m/%d/%Y"`, `"%d-%m-%Y"`, `"%Y-%m-%d"` in
order, rendering the first success as `"%Y-%m-%d"`.

CPython's `_strptime` compiles each layout to a regex (with `IGNORECASE`):
`%d` becomes `(3[01]|[12]\d|0[1-9]|[1-9])`, `%m` becomes
`(1[0-2]|0[1-9]|[1-9])`, `%Y` becomes four digits, `%b` an alternation of the
abbreviated month names, `%B` of the full month names, and a whitespace
character of the layout becomes one-or-more whitespace.  It takes the
engine's preferred match, requires it to consume the whole string, and then
`datetime(...)` validates the calendar date.  All of that is embedded
below. -/

structure DMY where
  day : Nat
  month : Nat
  year : Nat
  deriving DecidableEq

/-- Alternatives (in regex preference order) for strptime's `%d`:
`(3[01]|[12]\d|0[1-9]|[1-9])`. -/
def dayAlts (s : List Char) : List (Nat × List Char) :=
  (match s with
   | '3' :: c :: r =>
       if c = '0' || c = '1' then [(30 + (c.toNat - 48), r)] else []
   | _ => []) ++
  (match s with
   | c1 :: c2 :: r =>
       if (c1 = '1' || c1 = '2') && c2.isDigit then
         [((c1.toNat - 48) * 10 + (c2.toNat - 48), r)]
       else []
   | _ => []) ++
  (match s with
   | '0' :: c :: r =>
       if c.isDigit && !(c = '0') then [(c.toNat - 48, r)] else []
   | _ => []) ++
  (match s with
   | c :: r => if c.isDigit && !(c = '0') then [(c.toNat - 48, r)] else []
   | _ => [])

/-- Alternatives for strptime's `%m`: `(1[0-2]|0[1-9]|[1-9])`. -/
def monthNumAlts (s : List Char) : List (Nat × List Char) :=
  (match s with
   | '1' :: c :: r =>
       if c = '0' || c = '1' || c = '2' then [(10 + (c.toNat - 48), r)]
       else []
   | _ => []) ++
  (match s with
   | '0' :: c :: r =>
       if c.isDigit && !(c = '0') then [(c.toNat - 48, r)] else []
   | _ => []) ++
  (match s with
   | c :: r => if c.isDigit && !(c = '0') then [(c.toNat - 48, r)] else []
   | _ => [])

/-- Alternatives for strptime's `%Y`: exactly four digits. -/
def yearAlts (s : List Char) : List (Nat × List Char) :=
  match s with
  | a :: b :: c :: d :: r =>
      if a.isDigit && b.isDigit && c.isDigit && d.isDigit then
        [(((a.toNat - 48) * 10 + (b.toNat - 48)) * 100 +
          ((c.toNat - 48) * 10 + (d.toNat - 48)), r)]
      else []
  | _ => []

/-- Alternatives for the `\s+` a whitespace character of the layout compiles
to: greedy, so the longest run first. -/
def wsAlts (s : List Char) : List (Unit × List Char) :=
  let m := (s.takeWhile isPyWS).length
  (List.range m).map (fun i => ((), s.drop (m - i)))

/-- Match one month name (case-insensitively), returning its number. -/
def monthNameAlts (names : List (String × Nat)) (s : List Char) :
    List (Nat × List Char) :=
  names.flatMap (fun nm =>
    if (pyLowerList nm.1.data).isPrefixOf (pyLowerList s) then
      [(nm.2, s.drop nm.1.length)]
    else [])

def abbrevMonths : List (String × Nat) :=
  [("Jan", 1), ("Feb", 2), ("Mar", 3), ("Apr", 4), ("May", 5), ("Jun", 6),
   ("Jul", 7), ("Aug", 8), ("Sep", 9), ("Oct", 10), ("Nov", 11), ("Dec", 12)]

def fullMonths : List (String × Nat) :=
  [("January", 1), ("February", 2), ("March", 3), ("April", 4), ("May", 5),
   ("June", 6), ("July", 7), ("August", 8), ("September", 9),
   ("October", 10), ("November", 11), ("December", 12)]

/-- Tokens of the five strptime layouts `_parse_date` tries. -/
inductive FTok where
  | d
  | m
  | y
  | bAbbrev
  | bFull
  | ws
  | lit (c : Char)

/-- Alternatives for one layout token, threading the date parts parsed so
far. -/
def tokAlts : FTok → DMY → List Char → List (DMY × List Char)
  | .d, acc, s => (dayAlts s).map (fun pr => ({ acc with day := pr.1 }, pr.2))
  | .m, acc, s =>
      (monthNumAlts s).map (fun pr => ({ acc with month := pr.1 }, pr.2))
  | .y, acc, s => (yearAlts s).map (fun pr => ({ acc with year := pr.1 }, pr.2))
  | .bAbbrev, acc, s =>
      (monthNameAlts abbrevMonths s).map
        (fun pr => ({ acc with month := pr.1 }, pr.2))
  | .bFull, acc, s =>
      (monthNameAlts fullMonths s).map
        (fun pr => ({ acc with month := pr.1 }, pr.2))
  | .ws, acc, s => (wsAlts s).map (fun pr => (acc, pr.2))
  | .lit c, acc, s =>
      match s with
      | c2 :: r => if c2 = c then [(acc, r)] else []
      | [] => []

/-- Run a layout over the input, producing the backtracking alternatives in
preference order. -/
def runFmt : List FTok → DMY → List Char → List (DMY × List Char)
  | [], acc, s => [(acc, s)]
  | t :: ts, acc, s =>
      (tokAlts t acc s).flatMap (fun pr => runFmt ts pr.1 pr.2)

def isLeapYear (y : Nat) : Bool :=
  y % 4 = 0 && (!(y % 100 = 0) || y % 400 = 0)

def daysInMonth (y m : Nat) : Nat :=
  if m = 2 then (if isLeapYear y then 29 else 28)
  else if m = 4 || m = 6 || m = 9 || m = 11 then 30
  else 31

/-- `datetime(year, month, day)` construction succeeds. -/
def validDate (p : DMY) : Bool :=
  1 ≤ p.year && p.year ≤ 9999 && 1 ≤ p.month && p.month ≤ 12 &&
  1 ≤ p.day && p.day ≤ daysInMonth p.year p.month

/-- One `datetime.strptime(s, fmt)` attempt: take the regex engine's
preferred match, require full consumption, then validate the calendar
date.  `none` is the `ValueError` the caller catches. -/
def tryFormat (fmt : List FTok) (s : List Char) : Option DMY :=
  match (runFmt fmt ⟨1, 1, 1900⟩ s).head? with
  | some (p, rest) => if rest = [] && validDate p then some p else none
  | none => none

def fmtBdY : List FTok := [.bAbbrev, .ws, .d, .ws, .y]

def fmtBdCommaY : List FTok := [.bFull, .ws, .d, .lit ',', .ws, .y]

def fmtMdY : List FTok := [.m, .lit '/', .d, .lit '/', .y]

def fmtDmY : List FTok := [.d, .lit '-', .m, .lit '-', .y]

def fmtISO : List FTok := [.y, .lit '-', .m, .lit '-', .d]

def dateFormats : List (List FTok) :=
  [fmtBdY, fmtBdCommaY, fmtMdY, fmtDmY, fmtISO]

/-- Left-pad the decimal representation of `n` with zeros to `width`. -/
def padNum (width n : Nat) : String :=
  let s := toString n
  String.mk (List.replicate (width - s.length) '0') ++ s

/-- `dt.strftime("%Y-%m-%d")`.  Years are zero-padded to four digits; the
pipeline's years always come from four-digit `%Y` matches, so the platform
difference CPython shows for years 1-999 is unreachable here. -/
def renderISO (p : DMY) : String :=
  padNum 4 p.year ++ "-" ++ padNum 2 p.month ++ "-" ++ padNum 2 p.day

/-- `EntityExtractor._parse_date`: strip commas, try the layouts in order,
render the first success as ISO; `none` when no layout parses. -/
def parseDate (s : String) : Option String :=
  let cleaned := s.data.filter (fun c => !(c = ','))
  (dateFormats.foldl (fun acc fmt => acc <|> tryFormat fmt cleaned) none).map
    renderISO

/-! ## `EntityExtractor._parse_money`

`float(cleaned)` is modelled as exact rational parsing of Python's float
literal grammar (optional sign, digits with optional fraction, optional
exponent).  The `inf`/`nan` words and digit underscores `float` also accepts
are not representable as rationals and cannot arise from the money regexes,
so they are mapped to `none`. -/

def digitsToNat (ds : List Char) : Nat :=
  ds.foldl (fun acc c => acc * 10 + (c.toNat - 48)) 0

/-- Parse a Python float literal to an exact rational. -/
def pyFloat (s : List Char) : Option ℚ :=
  let (sgn, s1) : ℚ × List Char :=
    match s with
    | '+' :: r => (1, r)
    | '-' :: r => (-1, r)
    | _ => (1, s)
  let ip := s1.takeWhile Char.isDigit
  let s2 := s1.dropWhile Char.isDigit
  let (fp, s3) : List Char × List Char :=
    match s2 with
    | '.' :: r => (r.takeWhile Char.isDigit, r.dropWhile Char.isDigit)
    | _ => ([], s2)
  let hasFrac : Bool := match s2 with | '.' :: _ => true | _ => false
  if ip = [] && fp = [] then none
  else
    let mantissa : ℚ :=
      sgn * mkRat (digitsToNat ip * 10 ^ fp.length + digitsToNat fp)
        (10 ^ fp.length)
    match s3 with
    | [] => if ip = [] && !hasFrac then none else some mantissa
    | e :: r =>
        if e = 'e' || e = 'E' then
          let (esgn, r1) : Bool × List Char :=
            match r with
            | '+' :: r2 => (true, r2)
            | '-' :: r2 => (false, r2)
            | _ => (true, r)
          let ed := r1.takeWhile Char.isDigit
          let r2 := r1.dropWhile Char.isDigit
          if ed = [] || !(r2 = []) then none
          else if esgn then some (mantissa * 10 ^ digitsToNat ed)
          else some (mantissa * mkRat 1 (10 ^ digitsToNat ed))
        else none

/-- `EntityExtractor._parse_money`: strip `$`, `,`, `%`, whitespace, then
`float(...)`; `none` on `ValueError`. -/
def parseMoney (s : String) : Option ℚ :=
  pyFloat (pyStripList
    (s.data.filter (fun c => !(c = '$') && !(c = ',') && !(c = '%'))))

/-! ## Schemas (`app/models/schemas.py`) -/

inductive SummaryMode where
  | brief
  | detailed
  | bullet_points
  deriving DecidableEq

def SummaryMode.value : SummaryMode → String
  | .brief => "brief"
  | .detailed => "detailed"
  | .bullet_points => "bullets"

inductive LLMBackend where
  | openai
  | huggingface
  deriving DecidableEq

def LLMBackend.value : LLMBackend → String
  | .openai => "openai"
  | .huggingface => "hf"

inductive EntityType where
  | date
  | money
  | person
  | organization
  | location
  deriving DecidableEq

def EntityType.value : EntityType → String
  | .date => "date"
  | .money => "money"
  | .person => "person"
  | .organization => "organization"
  | .location => "location"

/-- `list(EntityType)`: declaration order. -/
def allEntityTypes : List EntityType :=
  [.date, .money, .person, .organization, .location]

/-- The normalized `value` field of an `Entity` (`Optional[Any]` in the
source): an ISO date string, the verbatim text (spaCy entities), or a
number. -/
inductive EValue where
  | str (s : String)
  | num (q : ℚ)
  deriving DecidableEq

structure Entity where
  type : EntityType
  text : String
  value : Option EValue
  confidence : ℚ
  deriving DecidableEq

/-! ## `EntityFilter` (`app/processors/entity_filters.py`) -/

def isUpperAlpha (c : Char) : Bool := 'A' ≤ c && c ≤ 'Z'

/-- `re.match(r'^[A-Z]{3}-[A-Z]{2}-\d{4}$', s)`: anchored shape match; `$`
also matches just before one trailing newline. -/
def skuMatch (s : List Char) : Bool :=
  match s with
  | a :: b :: c :: '-' :: d :: e :: '-' :: f :: g :: h :: i :: rest =>
      isUpperAlpha a && isUpperAlpha b && isUpperAlpha c &&
      isUpperAlpha d && isUpperAlpha e &&
      f.isDigit && g.isDigit && h.isDigit && i.isDigit &&
      (rest = [] || rest = ['\n'])
  | _ => false

/-- `EntityFilter.should_keep_entity`. -/
def should_keep_entity (text : String) (_etype : EntityType) : Bool :=
  let cleaned := pyStripList text.data
  if cleaned.length ≤ 1 then false
  else if text.data.contains '\n' || text.data.contains '\x0d' then false
  else if pyIsDigit cleaned then false
  else if skuMatch (pyUpperList text.data) then false
  else true

/-- `EntityFilter.reclassify_entity`. -/
def reclassify_entity (text : String) (current : EntityType) : EntityType :=
  if current = .person && listIsInfix "governorate".data (pyLowerList text.data)
  then .location else current

/-! ## `EntityExtractor` (`app/processors/entity_extractor.py`)

The spaCy model `self.nlp` is an external statistical recognizer; it is
modelled as an oracle `nlp : String → List SpacyEnt` giving the labelled
spans of `doc.ents` in document order. -/

structure SpacyEnt where
  label : String
  text : String
  deriving DecidableEq

/-- The `label_mapping` dict of `_extract_spacy_entities`. -/
def labelMapping (l : String) : Option EntityType :=
  if l = "PERSON" then some .person
  else if l = "ORG" then some .organization
  else if l = "GPE" then some .location
  else if l = "LOC" then some .location
  else none

def confDate : ℚ := mkRat 9 10

def confMoney : ℚ := mkRat 95 100

def confSpacy : ℚ := mkRat 85 100

/-- The body of the `_extract_dates` loop: skip texts already in the seen
set, otherwise append the entity. -/
def dateStep (acc : List String × List Entity) (dtext : String) :
    List String × List Entity :=
  if dtext ∈ acc.1 then acc
  else (acc.1 ++ [dtext],
        acc.2 ++ [⟨.date, dtext, (parseDate dtext).map .str, confDate⟩])

/-- `EntityExtractor._extract_dates`. -/
def extract_dates (text : String) : List Entity :=
  (datePatterns.foldl (fun acc pat => (findIter pat text).foldl dateStep acc)
    ([], [])).2

/-- The body of the `_extract_money` loop. -/
def moneyStep (acc : List String × List Entity) (mtext : String) :
    List String × List Entity :=
  if mtext ∈ acc.1 then acc
  else (acc.1 ++ [mtext],
        acc.2 ++ [⟨.money, mtext, (parseMoney mtext).map .num, confMoney⟩])

/-- `EntityExtractor._extract_money`. -/
def extract_money (text : String) : List Entity :=
  (moneyPatterns.foldl (fun acc pat => (findIter pat text).foldl moneyStep acc)
    ([], [])).2

/-- `EntityExtractor._extract_spacy_entities`: map labels, keep only
requested types, filter noise, reclassify, fixed confidence 0.85, and
`value = ent.text`. -/
def extract_spacy_entities (nlp : String → List SpacyEnt) (text : String)
    (entity_types : List EntityType) : List Entity :=
  (nlp text).foldl (fun acc ent =>
    match labelMapping ent.label with
    | some ety =>
        if ety ∈ entity_types then
          if should_keep_entity ent.text ety then
            acc ++ [⟨reclassify_entity ent.text ety, ent.text,
                     some (.str ent.text), confSpacy⟩]
          else acc
        else acc
    | none => acc) []

def entityKey (e : Entity) : EntityType × String := (e.type, e.text)

/-- One iteration of `_deduplicate_entities`: the Python dict `seen` is an
insertion-ordered association list; `seen[key] = entity` replaces in place
when the key exists and appends otherwise. -/
def dedupStep (seen : List ((EntityType × String) × Entity)) (e : Entity) :
    List ((EntityType × String) × Entity) :=
  match seen.find? (fun kv => decide (kv.1 = entityKey e)) with
  | none => seen ++ [(entityKey e, e)]
  | some kv =>
      if kv.2.confidence < e.confidence then
        seen.map (fun kv2 =>
          if kv2.1 = entityKey e then (kv2.1, e) else kv2)
      else seen

/-- `EntityExtractor._deduplicate_entities`. -/
def deduplicate_entities (entities : List Entity) : List Entity :=
  (entities.foldl dedupStep []).map Prod.snd

/-- The pre-deduplication candidate list built inside
`EntityExtractor.extract_entities` (lines 71-97): the empty/whitespace
guard, then the date pass, the money pass and the spaCy pass concatenated
in that order, each guarded by the requested types (`entity_types if
entity_types else list(EntityType)`; an empty list is falsy). -/
def candidate_entities (nlp : String → List SpacyEnt) (text : String)
    (entity_types : Option (List EntityType)) : List Entity :=
  if pyStrip text = "" then []
  else
    let types_to_extract :=
      match entity_types with
      | some (t :: ts) => t :: ts
      | _ => allEntityTypes
    let es1 := if EntityType.date ∈ types_to_extract then extract_dates text
               else []
    let es2 := if EntityType.money ∈ types_to_extract then extract_money text
               else []
    let spacy_types := types_to_extract.filter (fun t =>
      decide (t = .person) || decide (t = .organization) ||
      decide (t = .location))
    let es3 := if !(spacy_types = []) then
                 extract_spacy_entities nlp text spacy_types
               else []
    es1 ++ es2 ++ es3

/-- `EntityExtractor.extract_entities`: the candidate passes followed by
deduplication (on blank input both sides are `[]`, matching the early
return). -/
def extract_entities (nlp : String → List SpacyEnt) (text : String)
    (entity_types : Option (List EntityType)) : List Entity :=
  deduplicate_entities (candidate_entities nlp text entity_types)

/-! ## LLM services (`app/processors/llm_service.py`)

The remote OpenAI chat call and the local HuggingFace pipeline are external
collaborators, modelled as oracles returning either a summary string or the
error message of the exception they raise.  A service error is the `.error`
case of `Except String String` (the message of the raised
`LLMServiceError`). -/

/-- `OpenAIService._build_prompt`. -/
def build_prompt (text : String) (mode : SummaryMode)
    (max_length : Option Nat) : String :=
  let base := "Summarize the following document:\n\n" ++ text ++ "\n\n"
  let instr :=
    match mode with
    | .brief =>
        "Provide a brief 2-3 sentence summary highlighting ONLY the key points."
    | .detailed =>
        "Provide a detailed summary covering all important aspects of the document."
    | .bullet_points =>
        "Provide a summary in bullet points, highlighting the main points."
  let instr :=
    if pyTruthyNat max_length then
      instr ++ " Keep the summary under " ++ toString (max_length.getD 0) ++
        " words."
    else instr
  base ++ instr

/-- `OpenAIService._get_max_tokens`.  `int(max_length * 1.3)` is embedded as
`13 * n / 10` (floor): the IEEE double closest to 1.3 is slightly above 1.3,
and for every word count in range the float product truncates to the same
integer. -/
def get_max_tokens (mode : SummaryMode) (max_length : Option Nat) : Nat :=
  if pyTruthyNat max_length then max_length.getD 0 * 13 / 10
  else
    match mode with
    | .brief => 150
    | .detailed => 500
    | .bullet_points => 300

/-- `OpenAIService.summarize`.  `client prompt temperature maxTokens` is the
oracle for `self.client.chat.completions.create`; its `.error` case is the
exception re-raised as `LLMServiceError(f"openai API err: ...")`. -/
def OpenAIService.summarize (client : String → ℚ → Nat → Except String String)
    (text : String) (mode : SummaryMode) (max_length : Option Nat) :
    Except String String :=
  if pyStrip text = "" then .error "Cannot summarize empty text"
  else
    match client (build_prompt text mode max_length) (mkRat 3 10)
        (get_max_tokens mode max_length) with
    | .ok resp => .ok (pyStrip resp)
    | .error e => .error ("openai API err: " ++ e)

/-- `HuggingFaceService._get_length_params` (the `text_length` argument is
unused in the source body too). -/
def get_length_params (mode : SummaryMode) (max_length : Option Nat)
    (_text_length : Nat) : Nat × Nat :=
  let p : Nat × Nat :=
    match mode with
    | .brief => (30, 60)
    | .detailed => (100, 200)
    | .bullet_points => (50, 100)
  if pyTruthyNat max_length then
    let ml := min (max_length.getD 0) 200
    (min p.1 (ml / 2), ml)
  else p

/-- `HuggingFaceService._format_as_bullets`. -/
def format_as_bullets (text : String) : String :=
  let sentences :=
    ((text.splitOn ".").map pyStrip).filter (fun s => !(s = ""))
  if sentences.length ≤ 1 then "• " ++ text
  else String.intercalate "\n" (sentences.map (fun s => "• " ++ s ++ "."))

/-- `HuggingFaceService.summarize`.  `model text minLength maxLength` is the
oracle for `self.summarizer(...)` (already `do_sample=False` in the source);
its `.error` case is the exception re-raised as
`LLMServiceError(f"Huggingface error: ...")`. -/
def HuggingFaceService.summarize
    (model : String → Nat → Nat → Except String String) (text : String)
    (mode : SummaryMode) (max_length : Option Nat) : Except String String :=
  if pyStrip text = "" then .error "Cannot summarize empty text"
  else
    let text := if text.length > 4000 then (String.mk (text.data.take 4000))
                else text
    let p := get_length_params mode max_length text.length
    match model text p.1 p.2 with
    | .ok raw =>
        let summary := pyStrip raw
        .ok (if mode = .bullet_points then format_as_bullets summary
             else summary)
    | .error e => .error ("Huggingface error: " ++ e)

/-! ## `Job` and `JobManager` (`app/processors/job_manager.py`)

`datetime.utcnow()` is modelled as a `Nat` tick supplied by the caller.  The
registry's `Lock` serializes operations; the embedding makes each registry
operation one atomic step.  The `jobs` dict is an insertion-ordered
association list, exactly like a Python dict. -/

inductive JobState where
  | pending
  | processing
  | completed
  | failed
  deriving DecidableEq

/-- The subset of the uploaded-file info dict that the pipeline reads
(`file_path`, `max_pages`, `extract_tables`). -/
structure FileInfo where
  file_path : String
  max_pages : Nat
  extract_tables : Bool
  deriving DecidableEq

/-- The values the `metadata` dict of a job takes in the source: the empty
dict at creation, the background pipeline's metadata, or the
"processing started" message dict returned by `/process`. -/
inductive Metadata where
  | emptyDict
  | pipelineMeta (model_used backend summary_mode : String)
      (entity_count text_length pages_processed tables_extracted : Nat)
  | msgDict (message : String)
  deriving DecidableEq

structure Job where
  job_id : String
  status : JobState
  created_at : Nat
  updated_at : Nat
  progress : Int
  message : String
  error_message : Option String
  file_info : FileInfo
  pdf_path : Option String
  summary_mode : Option String
  llm_backend : Option String
  extract_entities : Bool
  entity_types : Option (List String)
  extracted_text : Option String
  summary : Option String
  entities : List Entity
  metadata : Metadata
  processing_time : Option Nat
  deriving DecidableEq

/-- `Job.__init__`. -/
def Job.new (job_id : String) (fi : FileInfo) (now : Nat) : Job where
  job_id := job_id
  status := .pending
  created_at := now
  updated_at := now
  progress := 0
  message := "Job created, awaiting processing"
  error_message := none
  file_info := fi
  pdf_path := none
  summary_mode := none
  llm_backend := none
  extract_entities := true
  entity_types := none
  extracted_text := none
  summary := none
  entities := []
  metadata := .emptyDict
  processing_time := none

/-- `Job.update_status`: always overwrites `status` and stamps `updated_at`;
`progress` only when one is supplied (`is not None`); `message` and
`error_message` only when truthy (absent or empty strings leave the stored
values in place). -/
def Job.update_status (j : Job) (status : JobState) (progress : Option Int)
    (message : Option String) (error_message : Option String) (now : Nat) :
    Job :=
  { j with
    status := status
    updated_at := now
    progress := match progress with | some p => p | none => j.progress
    message := if pyTruthyStr message then message.getD j.message
               else j.message
    error_message := if pyTruthyStr error_message then error_message
                     else j.error_message }

structure JobManager where
  jobs : List (String × Job)
  deriving DecidableEq

/-- Lookup in an insertion-ordered association list (a Python dict). -/
def assocFind {α : Type} (l : List (String × α)) (id : String) : Option α :=
  (l.find? (fun kv => decide (kv.1 = id))).map (·.2)

/-- Python dict assignment `d[k] = v`: replace in place when the key exists,
append otherwise. -/
def assocSet {α : Type} (l : List (String × α)) (id : String) (v : α) :
    List (String × α) :=
  if (l.find? (fun kv => decide (kv.1 = id))).isSome then
    l.map (fun kv => if kv.1 = id then (id, v) else kv)
  else l ++ [(id, v)]

/-- Python dict deletion `del d[k]` (the caller checks presence). -/
def assocRemove {α : Type} (l : List (String × α)) (id : String) :
    List (String × α) :=
  l.filter (fun kv => !(kv.1 = id))

/-- Abbreviation used throughout `JobManager`. -/
def dictSet (jobs : List (String × Job)) (id : String) (j : Job) :
    List (String × Job) :=
  assocSet jobs id j

/-- `JobManager.get_job`: `self.jobs.get(job_id)`.  In Python this returns
the stored `Job` object itself (an aliased reference), not a copy; see
`mutate_via_get_job`. -/
def JobManager.get_job (m : JobManager) (id : String) : Option Job :=
  assocFind m.jobs id

/-- `JobManager.job_exists`. -/
def JobManager.job_exists (m : JobManager) (id : String) : Bool :=
  (m.get_job id).isSome

/-- `JobManager.create_job` (the fresh uuid is supplied by the caller as
`id`). -/
def JobManager.create_job (m : JobManager) (id : String) (fi : FileInfo)
    (now : Nat) : JobManager :=
  { jobs := dictSet m.jobs id (Job.new id fi now) }

/-- A caller-side mutation of the object returned by `get_job`.  Because
`get_job` hands out the dict's own value, assigning to the returned object's
fields (here: applying `f`) updates the very record the registry stores:
this definition is the embedding of that Python aliasing. -/
def JobManager.mutate_via_get_job (m : JobManager) (id : String)
    (f : Job → Job) : JobManager :=
  match m.get_job id with
  | some job => { jobs := dictSet m.jobs id (f job) }
  | none => m

/-- `JobManager.update_job_status`: fetch via `get_job`, then mutate the
(aliased) record under the lock; a no-op when the job does not exist. -/
def JobManager.update_job_status (m : JobManager) (id : String)
    (status : JobState) (progress : Option Int) (message : Option String)
    (error_message : Option String) (now : Nat) : JobManager :=
  match m.get_job id with
  | some job =>
      { jobs := dictSet m.jobs id
          (job.update_status status progress message error_message now) }
  | none => m

/-- `JobManager.set_job_processing_config`; a no-op when the job does not
exist. -/
def JobManager.set_job_processing_config (m : JobManager) (id : String)
    (pdf_path : String) (summary_mode : String) (llm_backend : String)
    (extract_flag : Bool) (entity_types : Option (List String)) :
    JobManager :=
  match m.get_job id with
  | some job =>
      { jobs := dictSet m.jobs id
          { job with
            pdf_path := some pdf_path
            summary_mode := some summary_mode
            llm_backend := some llm_backend
            extract_entities := extract_flag
            entity_types := entity_types } }
  | none => m

/-- The payload of `JobManager.set_job_results`. -/
structure Results where
  extracted_text : String
  summary : String
  entities : List Entity
  metadata : Metadata
  processing_time : Nat
  deriving DecidableEq

/-- `JobManager.set_job_results`; a no-op when the job does not exist. -/
def JobManager.set_job_results (m : JobManager) (id : String) (r : Results) :
    JobManager :=
  match m.get_job id with
  | some job =>
      { jobs := dictSet m.jobs id
          { job with
            extracted_text := some r.extracted_text
            summary := some r.summary
            entities := r.entities
            metadata := r.metadata
            processing_time := some r.processing_time } }
  | none => m

/-- `JobManager.delete_job`: atomic remove-if-present, returning whether a
record existed. -/
def JobManager.delete_job (m : JobManager) (id : String) :
    JobManager × Bool :=
  if (m.jobs.find? (fun kv => decide (kv.1 = id))).isSome then
    ({ jobs := assocRemove m.jobs id }, true)
  else (m, false)

/-! ## The `/process` route and the background pipeline
(`app/api/routes.py`) -/

structure ProcessRequest where
  job_id : String
  summary_mode : SummaryMode
  llm_backend : LLMBackend
  extract_entities : Bool
  entity_types : Option (List EntityType)
  deriving DecidableEq

structure ProcessResponse where
  job_id : String
  status : String
  summary : Option String
  entities : List Entity
  metadata : Metadata
  processing_time_seconds : Option Nat
  deriving DecidableEq

/-- `[et.value for et in request.entity_types] if request.entity_types else
None`: an absent or empty list is falsy and stores `None`. -/
def pyEntityTypeValues (ets : Option (List EntityType)) :
    Option (List String) :=
  match ets with
  | some (t :: ts) => some ((t :: ts).map EntityType.value)
  | _ => none

/-- `process_pdf` (the `/process` handler).  Returns the new registry, the
HTTP outcome (`.error` is an `HTTPException` detail, raised before any
registry mutation), and whether a background task was dispatched.  The
`Completed` branch returns the cached result without mutating anything or
dispatching; otherwise the processing config is stored, the background task
is scheduled (it starts only after the handler returns), and the job is
stamped `Processing` at progress 5. -/
def process_pdf (m : JobManager) (req : ProcessRequest) (now : Nat) :
    JobManager × Except String ProcessResponse × Bool :=
  match m.get_job req.job_id with
  | none => (m, .error ("Job " ++ req.job_id ++ " not found"), false)
  | some job =>
    if job.status = .processing then
      (m, .error "Job is already being processed", false)
    else if job.status = .completed then
      (m, .ok
        { job_id := job.job_id
          status := "completed"
          summary := job.summary
          entities := job.entities
          metadata := job.metadata
          processing_time_seconds := job.processing_time }, false)
    else
      let m1 := m.set_job_processing_config req.job_id job.file_info.file_path
        req.summary_mode.value req.llm_backend.value req.extract_entities
        (pyEntityTypeValues req.entity_types)
      let m2 := m1.update_job_status req.job_id .processing (some 5)
        (some "Processing started") none now
      (m2, .ok
        { job_id := req.job_id
          status := "processing"
          summary := none
          entities := []
          metadata := .msgDict
            "Processing started in background. Check /status/\x7bjob_id\x7d for updates."
          processing_time_seconds := none }, true)

/-- Successful outcome of the PDF extraction stage. -/
structure ExtractOk where
  text : String
  page_count : Nat
  tables : Nat
  deriving DecidableEq

/-- Successful outcome of the summarization stage (`summarize` result plus
`get_model_info` and the wall-clock `processing_time`). -/
structure SummaryOk where
  summary : String
  model : String
  backend : String
  elapsed : Nat
  deriving DecidableEq

/-- One registry call performed by `process_pdf_background`. -/
inductive RegOp where
  | upd (status : JobState) (progress : Option Int) (message : Option String)
      (error_message : Option String)
  | setRes (r : Results)
  deriving DecidableEq

/-- The `except` branch of `process_pdf_background`: mark as failed, message
`"Processing failed"`, error detail `str(e)`, and no progress value. -/
def failOp (e : String) : RegOp :=
  .upd .failed none (some "Processing failed") (some e)

/-- The metadata dict assembled by `process_pdf_background`. -/
def mkMeta (s : SummaryOk) (mode : SummaryMode) (entities : List Entity)
    (ex : ExtractOk) : Metadata :=
  .pipelineMeta s.model s.backend mode.value entities.length ex.text.length
    ex.page_count ex.tables

/-- The summary stage and everything after it (progress 50, then on success
progress 90, `set_job_results`, and the `Completed` transition at
progress 100). -/
def scriptTail (mode : SummaryMode) (backend : LLMBackend) (ex : ExtractOk)
    (ents : List Entity) (so : Except String SummaryOk) : List RegOp :=
  .upd .processing (some 50)
      (some ("Generating summary using " ++ backend.value)) none ::
  match so with
  | .error e => [failOp e]
  | .ok s =>
      [.upd .processing (some 90) (some "Finalizing results") none,
       .setRes ⟨ex.text, s.summary, ents, mkMeta s mode ents ex, s.elapsed⟩,
       .upd .completed (some 100) (some "Processing completed successfully")
         none]

/-- The ordered sequence of registry calls `process_pdf_background` makes,
as a function of the stage outcomes (`eo`: PDF extraction, `no`: entity
extraction — consulted only when entity extraction was requested, `so`:
summarization).  Any stage failure produces `failOp` and ends the run. -/
def mkScript (flag : Bool) (mode : SummaryMode) (backend : LLMBackend)
    (eo : Except String ExtractOk) (no : Except String (List Entity))
    (so : Except String SummaryOk) : List RegOp :=
  .upd .processing (some 10) (some "Extracting text from pdf") none ::
  match eo with
  | .error e => [failOp e]
  | .ok ex =>
      if flag then
        .upd .processing (some 30) (some "Extracting entities from document")
            none ::
        match no with
        | .error e => [failOp e]
        | .ok ents => scriptTail mode backend ex ents so
      else scriptTail mode backend ex [] so

/-- Apply one background registry call at time `t`. -/
def applyOp (m : JobManager) (id : String) (t : Nat) : RegOp → JobManager
  | .upd st p msg err => m.update_job_status id st p msg err t
  | .setRes r => m.set_job_results id r

/-! ## Traces of the public operations

A system state is the registry plus, per job, the remaining registry calls
of its in-flight background run.  One `Step` is one atomic public
operation: `create` (upload boundary), `startJob` (the `/process` handler,
carrying the stage outcomes of the run it dispatches), or `bg` (the next
registry call of a dispatched run).  Guard failures (unknown id, already
processing) perform no registry mutation, exactly like the raised
`HTTPException`s. -/

structure SysState where
  mgr : JobManager
  tasks : List (String × List RegOp)
  deriving DecidableEq

def tasksGet (ts : List (String × List RegOp)) (id : String) :
    Option (List RegOp) :=
  assocFind ts id

def tasksSet (ts : List (String × List RegOp)) (id : String)
    (ops : List RegOp) : List (String × List RegOp) :=
  assocSet ts id ops

def tasksRemove (ts : List (String × List RegOp)) (id : String) :
    List (String × List RegOp) :=
  assocRemove ts id

inductive Step where
  | create (id : String) (fi : FileInfo) (t : Nat)
  | startJob (req : ProcessRequest) (eo : Except String ExtractOk)
      (no : Except String (List Entity)) (so : Except String SummaryOk)
      (t : Nat)
  | bg (id : String) (t : Nat)

/-- Apply one public operation.  `create` requires a fresh identifier (the
uuid never collides); `startJob` runs `process_pdf` and installs the
background script when one was dispatched; `bg` performs the next registry
call of a live run. -/
def applyStep (S : SysState) : Step → SysState
  | .create id fi t =>
      if (S.mgr.get_job id).isSome || (tasksGet S.tasks id).isSome then S
      else { S with mgr := S.mgr.create_job id fi t }
  | .startJob req eo no so t =>
      let r := process_pdf S.mgr req t
      if r.2.2 then
        { mgr := r.1,
          tasks := tasksSet S.tasks req.job_id
            (mkScript req.extract_entities req.summary_mode req.llm_backend
              eo no so) }
      else { S with mgr := r.1 }
  | .bg id t =>
      match tasksGet S.tasks id with
      | some (op :: rest) =>
          { mgr := applyOp S.mgr id t op,
            tasks := if rest = [] then tasksRemove S.tasks id
                     else tasksSet S.tasks id rest }
      | _ => S

def initState : SysState := ⟨⟨[]⟩, []⟩

def runTrace (tr : List Step) : SysState := tr.foldl applyStep initState

/-- The status of job `id` observed after running `tr`. -/
def statusAt (tr : List Step) (id : String) : Option JobState :=
  ((runTrace tr).mgr.get_job id).map (·.status)

/-! ## Specification predicates

Definitions used only to *state* properties of the embedded program. -/

/-- `e` is the first element of `grp` attaining the maximal confidence:
everything before it is strictly lower, everything after it is not higher.
This is the survivor `_deduplicate_entities` keeps for one key group. -/
def keptFirstMax (grp : List Entity) (e : Entity) : Prop :=
  ∃ l₁ l₂, grp = l₁ ++ e :: l₂ ∧
    (∀ c ∈ l₁, c.confidence < e.confidence) ∧
    (∀ c ∈ l₂, c.confidence ≤ e.confidence)

/-- A non-final registry call of a background run: a `Processing` status
update or the result write. -/
def midOp : RegOp → Prop
  | .upd st _ _ _ => st = .processing
  | .setRes _ => True

/-- The final registry call of a background run: the `Completed` or `Failed`
transition. -/
def termOp : RegOp → Prop
  | .upd st _ _ _ => st = .completed ∨ st = .failed
  | .setRes _ => False

/-- Shape of the remaining script of a live background run: non-final calls
keep the job `Processing`; the last call is terminal. -/
def ScriptOK : List RegOp → Prop
  | [] => False
  | [op] => termOp op
  | op :: op2 :: rest => midOp op ∧ ScriptOK (op2 :: rest)

/-- If a call makes the job `Failed` it carries a non-empty error detail. -/
def opFailHasErr : RegOp → Prop
  | .upd st _ _ err => st = .failed → ∃ e, err = some e ∧ ¬(e = "")
  | .setRes _ => True

/-- Only the `Failed` transition carries an error detail. -/
def opErrOnlyFail : RegOp → Prop
  | .upd st _ _ err => ∀ e, err = some e → st = .failed
  | .setRes _ => True

/-- Every stage failure a step reports carries a non-empty message
(`str(e)` of the raised exception). -/
def stepErrsOK : Step → Prop
  | .startJob _ eo no so _ =>
      (∀ e, eo = .error e → ¬(e = "")) ∧ (∀ e, no = .error e → ¬(e = "")) ∧
      (∀ e, so = .error e → ¬(e = ""))
  | _ => True

/-- The job-state transitions actually reachable in the code: stuttering,
`Pending → Processing`, `Processing → Completed`, `Processing → Failed`,
and the retry `Failed → Processing` that `/process` permits. -/
def allowedTransition (a b : JobState) : Prop :=
  a = b ∨ (a = .pending ∧ b = .processing) ∨
  (a = .processing ∧ b = .completed) ∨ (a = .processing ∧ b = .failed) ∨
  (a = .failed ∧ b = .processing)

/-- Reachability invariant: every live background script is well-shaped and
its job is currently `Processing`. -/
def InvC1 (S : SysState) : Prop :=
  ∀ id ops, tasksGet S.tasks id = some ops →
    ScriptOK ops ∧ ((S.mgr.get_job id).map Job.status) = some .processing

/-- Error-field invariant: live scripts give non-empty details to `Failed`
transitions, and every `Failed` job carries a non-empty error message. -/
def InvC2a (S : SysState) : Prop :=
  (∀ id ops, tasksGet S.tasks id = some ops → ∀ op ∈ ops, opFailHasErr op) ∧
  (∀ id job, S.mgr.get_job id = some job → job.status = .failed →
    ∃ e, job.error_message = some e ∧ ¬(e = ""))

/-! ## Concrete fixtures for counterexamples and witnesses -/

def fiX : FileInfo := ⟨"/tmp/pdf_summarizer_uploads/a.pdf", 3, true⟩

/-- A `/process` request with entity extraction disabled. -/
def reqX : ProcessRequest := ⟨"j", .brief, .openai, false, none⟩

def exOkX : Except String ExtractOk := .ok ⟨"text", 2, 0⟩

def sumOkX : Except String SummaryOk := .ok ⟨"sum", "gpt-3.5-turbo", "openai", 4⟩

/-- create, start, then the run fails at the extraction stage with message
"boom": the job is observed `Failed`. -/
def c1TraceFail : List Step :=
  [.create "j" fiX 0, .startJob reqX (.error "boom") (.ok []) sumOkX 1,
   .bg "j" 2, .bg "j" 3]

/-- Restarting the failed job: `/process` accepts it again. -/
def c1Retry : Step := .startJob reqX exOkX (.ok []) sumOkX 4

/-- The same story continued to completion: fail, retry, succeed.  The
stale error message "boom" survives into the `Completed` record. -/
def c2Trace : List Step :=
  [.create "j" fiX 0, .startJob reqX (.error "boom") (.ok []) sumOkX 1,
   .bg "j" 2, .bg "j" 3, .startJob reqX exOkX (.ok []) sumOkX 4,
   .bg "j" 5, .bg "j" 6, .bg "j" 7, .bg "j" 8, .bg "j" 9]

/-- A clean run: create, start, succeed, never failed. -/
def c2CleanTrace : List Step :=
  [.create "j" fiX 0, .startJob reqX exOkX (.ok []) sumOkX 1,
   .bg "j" 2, .bg "j" 3, .bg "j" 4, .bg "j" 5, .bg "j" 6]

/-- The job record the clean run ends with. -/
def c2CleanJob : Job :=
  ((runTrace c2CleanTrace).mgr.get_job "j").getD (Job.new "j" fiX 0)

/-- The trace of `c1TraceFail` ends with a `Pending` job before any start:
fixture for the C1 witness. -/
def c1WitnessBase : List Step := [.create "j" fiX 0]

def c1WitnessStep : Step := .startJob reqX exOkX (.ok []) sumOkX 1

/-- A completed job record for the C5 fixtures. -/
def jobC5 : Job :=
  { Job.new "j" fiX 0 with
    status := .completed
    progress := 100
    summary := some "the summary"
    entities := [⟨.date, "2025-02-13", some (.str "2025-02-13"), confDate⟩]
    metadata := .pipelineMeta "gpt-3.5-turbo" "openai" "brief" 1 9 2 0
    processing_time := some 4 }

def mgrC5 : JobManager := ⟨[("j", jobC5)]⟩

def mgrC6 : JobManager := (⟨[]⟩ : JobManager).create_job "j" fiX 0

def mgrC7 : JobManager := ⟨[("j", Job.new "j" fiX 0)]⟩

/-- The deduplication witness oracle: one recognizer span. -/
def nlpC3 : String → List SpacyEnt := fun _ => [⟨"GPE", "Paris"⟩]

def nlpEmpty : String → List SpacyEnt := fun _ => []

/-! ## Theorems

### Association-list (Python dict) lemmas -/

theorem assocFind_nil {α : Type} (id : String) :
    assocFind ([] : List (String × α)) id = none := rfl

theorem assocFind_cons {α : Type} (kv : String × α) (l : List (String × α))
    (id : String) :
    assocFind (kv :: l) id =
      if kv.1 = id then some kv.2 else assocFind l id := by
  by_cases h : kv.1 = id <;> simp [assocFind, List.find?, h]

theorem find?_cons_key {α : Type} (kv : String × α) (l : List (String × α))
    (id0 : String) :
    (kv :: l).find? (fun kv => decide (kv.1 = id0)) =
      if kv.1 = id0 then some kv
      else l.find? (fun kv => decide (kv.1 = id0)) := by
  by_cases h : kv.1 = id0
  · rw [List.find?_cons_of_pos _ (by simp [h]), if_pos h]
  · rw [List.find?_cons_of_neg _ (by simp [h]), if_neg h]

theorem map_keyfix_of_not_mem {α : Type} (l : List (String × α))
    (id0 : String) (v : α)
    (h : l.find? (fun kv => decide (kv.1 = id0)) = none) :
    l.map (fun kv => if kv.1 = id0 then (id0, v) else kv) = l := by
  induction l with
  | nil => rfl
  | cons kv l ih =>
      rw [find?_cons_key] at h
      by_cases h1 : kv.1 = id0
      · rw [if_pos h1] at h
        exact absurd h (by simp)
      · rw [if_neg h1] at h
        simp only [List.map_cons, if_neg h1, ih h]

theorem assocSet_cons_of_ne {α : Type} (kv : String × α)
    (l : List (String × α)) (id0 : String) (v : α) (h : ¬(kv.1 = id0)) :
    assocSet (kv :: l) id0 v = kv :: assocSet l id0 v := by
  unfold assocSet
  rw [find?_cons_key, if_neg h]
  by_cases hc : (l.find? (fun kv => decide (kv.1 = id0))).isSome
  · rw [if_pos hc, if_pos hc, List.map_cons, if_neg h]
  · rw [if_neg hc, if_neg hc, List.cons_append]

theorem assocFind_map_ne {α : Type} (l : List (String × α)) (id0 : String)
    (v : α) (id : String) (hid : ¬(id = id0)) :
    assocFind (l.map (fun kv => if kv.1 = id0 then (id0, v) else kv)) id =
      assocFind l id := by
  induction l with
  | nil => rfl
  | cons kv l ih =>
      rw [List.map_cons]
      by_cases hx : kv.1 = id0
      · rw [if_pos hx, assocFind_cons, assocFind_cons,
          if_neg (fun hh : (id0, v).1 = id => hid hh.symm),
          if_neg (fun hh : kv.1 = id => hid (hx ▸ hh).symm), ih]
      · rw [if_neg hx, assocFind_cons, assocFind_cons, ih]

theorem assocFind_map_eq {α : Type} (l : List (String × α)) (id0 : String)
    (v : α)
    (hc : (l.find? (fun kv => decide (kv.1 = id0))).isSome) :
    assocFind (l.map (fun kv => if kv.1 = id0 then (id0, v) else kv)) id0 =
      some v := by
  induction l with
  | nil => exact absurd hc (by simp)
  | cons kv l ih =>
      rw [List.map_cons]
      by_cases hx : kv.1 = id0
      · rw [if_pos hx, assocFind_cons, if_pos rfl]
      · rw [if_neg hx, assocFind_cons, if_neg hx]
        apply ih
        rw [find?_cons_key, if_neg hx] at hc
        exact hc

theorem assocFind_append_one {α : Type} (l : List (String × α))
    (id0 : String) (v : α) (id : String)
    (h : l.find? (fun kv => decide (kv.1 = id0)) = none) :
    assocFind (l ++ [(id0, v)]) id =
      if id = id0 then some v else assocFind l id := by
  unfold assocFind
  rw [List.find?_append]
  by_cases hid : id = id0
  · subst hid
    rw [h, if_pos rfl]
    simp [List.find?]
  · rw [if_neg hid]
    have : List.find? (fun kv => decide (kv.1 = id)) [(id0, v)] = none := by
      rw [List.find?_eq_none]
      intro x hx
      simp only [List.mem_singleton] at hx
      subst hx
      simp only [decide_eq_true_eq]
      exact fun hh => hid hh.symm
    rw [this, Option.or_none]

theorem assocFind_assocSet {α : Type} (l : List (String × α)) (id0 : String)
    (v : α) (id : String) :
    assocFind (assocSet l id0 v) id =
      if id = id0 then some v else assocFind l id := by
  unfold assocSet
  by_cases hc : (l.find? (fun kv => decide (kv.1 = id0))).isSome
  · rw [if_pos hc]
    by_cases hid : id = id0
    · subst hid
      rw [if_pos rfl, assocFind_map_eq l id v hc]
    · rw [if_neg hid, assocFind_map_ne l id0 v id hid]
  · rw [if_neg hc]
    apply assocFind_append_one
    cases hfind : l.find? (fun kv => decide (kv.1 = id0)) with
    | none => rfl
    | some x => rw [hfind] at hc; exact absurd rfl hc

theorem assocRemove_cons_of_eq {α : Type} (kv : String × α)
    (l : List (String × α)) (id0 : String) (h : kv.1 = id0) :
    assocRemove (kv :: l) id0 = assocRemove l id0 := by
  simp [assocRemove, List.filter_cons, h]

theorem assocRemove_cons_of_ne {α : Type} (kv : String × α)
    (l : List (String × α)) (id0 : String) (h : ¬(kv.1 = id0)) :
    assocRemove (kv :: l) id0 = kv :: assocRemove l id0 := by
  simp [assocRemove, List.filter_cons, h]

theorem assocFind_assocRemove_eq {α : Type} (l : List (String × α))
    (id0 : String) :
    assocFind (assocRemove l id0) id0 = none := by
  unfold assocFind
  have : (assocRemove l id0).find? (fun kv => decide (kv.1 = id0)) = none := by
    rw [List.find?_eq_none]
    intro kv hkv
    have := (List.mem_filter.mp hkv).2
    simpa using this
  rw [this]
  rfl

theorem assocFind_assocRemove_ne {α : Type} (l : List (String × α))
    (id0 id : String) (hid : ¬(id = id0)) :
    assocFind (assocRemove l id0) id = assocFind l id := by
  induction l with
  | nil => rfl
  | cons kv l ih =>
      by_cases hx : kv.1 = id0
      · rw [assocRemove_cons_of_eq kv l id0 hx, ih, assocFind_cons,
          if_neg (fun hh : kv.1 = id => hid (hx ▸ hh).symm)]
      · rw [assocRemove_cons_of_ne kv l id0 hx, assocFind_cons,
          assocFind_cons, ih]

/-! ### Registry operation lemmas -/

theorem get_job_update_status (m : JobManager) (id0 : String) (st : JobState)
    (p : Option Int) (msg err : Option String) (t : Nat) (id : String) :
    (m.update_job_status id0 st p msg err t).get_job id =
      if id = id0 then
        (m.get_job id0).map (fun j => j.update_status st p msg err t)
      else m.get_job id := by
  unfold JobManager.update_job_status
  cases h : m.get_job id0 with
  | none =>
      by_cases hid : id = id0
      · subst hid
        rw [if_pos rfl, h]
        rfl
      · rw [if_neg hid]
  | some j =>
      simp only [JobManager.get_job, dictSet, assocFind_assocSet]
      split <;> rfl

theorem get_job_set_config (m : JobManager) (id0 : String) (pp sm lb : String)
    (fl : Bool) (ets : Option (List String)) (id : String) :
    (m.set_job_processing_config id0 pp sm lb fl ets).get_job id =
      if id = id0 then
        (m.get_job id0).map (fun j =>
          { j with
            pdf_path := some pp
            summary_mode := some sm
            llm_backend := some lb
            extract_entities := fl
            entity_types := ets })
      else m.get_job id := by
  unfold JobManager.set_job_processing_config
  cases h : m.get_job id0 with
  | none =>
      by_cases hid : id = id0
      · subst hid
        rw [if_pos rfl, h]
        rfl
      · rw [if_neg hid]
  | some j =>
      simp only [JobManager.get_job, dictSet, assocFind_assocSet]
      split <;> rfl

theorem get_job_set_results (m : JobManager) (id0 : String) (r : Results)
    (id : String) :
    (m.set_job_results id0 r).get_job id =
      if id = id0 then
        (m.get_job id0).map (fun j =>
          { j with
            extracted_text := some r.extracted_text
            summary := some r.summary
            entities := r.entities
            metadata := r.metadata
            processing_time := some r.processing_time })
      else m.get_job id := by
  unfold JobManager.set_job_results
  cases h : m.get_job id0 with
  | none =>
      by_cases hid : id = id0
      · subst hid
        rw [if_pos rfl, h]
        rfl
      · rw [if_neg hid]
  | some j =>
      simp only [JobManager.get_job, dictSet, assocFind_assocSet]
      split <;> rfl

theorem get_job_create (m : JobManager) (id0 : String) (fi : FileInfo)
    (t : Nat) (id : String) :
    (m.create_job id0 fi t).get_job id =
      if id = id0 then some (Job.new id0 fi t) else m.get_job id := by
  simp only [JobManager.create_job, JobManager.get_job, dictSet,
    assocFind_assocSet]

theorem tasksGet_tasksSet (ts : List (String × List RegOp)) (id0 : String)
    (ops : List RegOp) (id : String) :
    tasksGet (tasksSet ts id0 ops) id =
      if id = id0 then some ops else tasksGet ts id := by
  simp only [tasksGet, tasksSet, assocFind_assocSet]

theorem tasksGet_tasksRemove (ts : List (String × List RegOp))
    (id0 id : String) :
    tasksGet (tasksRemove ts id0) id =
      if id = id0 then none else tasksGet ts id := by
  by_cases hid : id = id0
  · subst hid
    simp only [tasksGet, tasksRemove, assocFind_assocRemove_eq, if_pos]
  · simp only [tasksGet, tasksRemove, assocFind_assocRemove_ne _ _ _ hid,
      if_neg hid]

/-- The registry's own `update_job_status` is exactly a caller-side mutation
through the alias `get_job` returns: the code relies on the aliasing. -/
theorem update_job_status_is_mutate_via_alias (m : JobManager) (id : String)
    (st : JobState) (p : Option Int) (msg err : Option String) (t : Nat) :
    m.update_job_status id st p msg err t =
      m.mutate_via_get_job id (fun j => j.update_status st p msg err t) := by
  unfold JobManager.update_job_status JobManager.mutate_via_get_job
  cases m.get_job id <;> rfl

/-! ### C5 — idempotent start on a completed job -/

/-- C5: for every job whose state is `Completed`, `/process` returns the
previously stored result (summary, entities, metadata, processing time)
without dispatching any pipeline stage, and leaves the registry — hence the
job record's state, progress, results and timestamps — completely
unchanged. -/
theorem c5_completed_start_is_cached_noop (m : JobManager)
    (req : ProcessRequest) (now : Nat) (job : Job)
    (h : m.get_job req.job_id = some job) (hc : job.status = .completed) :
    process_pdf m req now =
      (m, .ok
        { job_id := job.job_id
          status := "completed"
          summary := job.summary
          entities := job.entities
          metadata := job.metadata
          processing_time_seconds := job.processing_time }, false) := by
  unfold process_pdf
  rw [h]
  have hp : ¬(job.status = .processing) := by rw [hc]; intro hh; cases hh
  simp [hc, hp]

/-- C5 witness: the cached-result branch evaluated on a concrete completed
job. -/
theorem c5_witness :
    process_pdf mgrC5 reqX 9 =
      (mgrC5, .ok
        { job_id := "j"
          status := "completed"
          summary := some "the summary"
          entities := [⟨.date, "2025-02-13", some (.str "2025-02-13"),
            confDate⟩]
          metadata := .pipelineMeta "gpt-3.5-turbo" "openai" "brief" 1 9 2 0
          processing_time_seconds := some 4 }, false) :=
  c5_completed_start_is_cached_noop mgrC5 reqX 9 jobC5 (by rfl) (by rfl)

/-! ### C6 — `get_job` returns an alias, not a defensive copy -/

/-- C6 counterexample: `get_job` hands out the stored record itself, so a
caller-side mutation of the returned object (here: overwriting `message`)
is observed by the very next registry read — refuting the claim that
mutating the returned record cannot change what subsequent reads observe. -/
theorem c6_counterexample :
    ((mgrC6.mutate_via_get_job "j"
        (fun j => { j with message := "mutated" })).get_job "j").map
      Job.message = some "mutated" ∧
    (mgrC6.get_job "j").map Job.message =
      some "Job created, awaiting processing" := by
  constructor <;> rfl

/-- C6 amended: `get_job` returns a direct (aliased) reference to the stored
record; mutating the returned record updates the stored record, so every
subsequent registry read of the same job observes the mutation — the
registry operations are not the only path through which a stored record's
fields change. -/
theorem c6_get_job_returns_alias (m : JobManager) (id : String)
    (f : Job → Job) (job : Job) (h : m.get_job id = some job) :
    (m.mutate_via_get_job id f).get_job id = some (f job) := by
  unfold JobManager.mutate_via_get_job
  rw [h]
  simp only [JobManager.get_job, dictSet, assocFind_assocSet, if_pos]

/-- C6 witness: the aliasing equation evaluated on a concrete registry. -/
theorem c6_witness :
    (mgrC6.mutate_via_get_job "j"
        (fun j => { j with message := "mutated" })).get_job "j" =
      some { Job.new "j" fiX 0 with message := "mutated" } :=
  c6_get_job_returns_alias mgrC6 "j"
    (fun j => { j with message := "mutated" }) (Job.new "j" fiX 0) (by rfl)

/-! ### C7 — absent identifiers: mutations are no-ops, delete reports -/

/-- C7: for an absent job identifier every mutation operation
(`update_job_status`, `set_job_processing_config`, `set_job_results`) is a
no-op that raises no error and changes nothing, and `delete_job` returns
`false`; for a present identifier `delete_job` removes exactly that record
and returns `true`. -/
theorem c7_absent_id_noops (m : JobManager) (id : String) :
    (m.get_job id = none →
      (∀ st p msg err t, m.update_job_status id st p msg err t = m) ∧
      (∀ pp sm lb fl ets,
        m.set_job_processing_config id pp sm lb fl ets = m) ∧
      (∀ r, m.set_job_results id r = m) ∧
      m.delete_job id = (m, false)) ∧
    (∀ job, m.get_job id = some job →
      (m.delete_job id).2 = true ∧
      (m.delete_job id).1.get_job id = none ∧
      (∀ id2, ¬(id2 = id) →
        (m.delete_job id).1.get_job id2 = m.get_job id2)) := by
  constructor
  · intro h
    have hfind : m.jobs.find? (fun kv => decide (kv.1 = id)) = none := by
      unfold JobManager.get_job assocFind at h
      cases hf : m.jobs.find? (fun kv => decide (kv.1 = id)) with
      | none => rfl
      | some kv => rw [hf] at h; cases h
    refine ⟨?_, ?_, ?_, ?_⟩
    · intro st p msg err t
      unfold JobManager.update_job_status
      rw [h]
    · intro pp sm lb fl ets
      unfold JobManager.set_job_processing_config
      rw [h]
    · intro r
      unfold JobManager.set_job_results
      rw [h]
    · unfold JobManager.delete_job
      rw [hfind]
      rfl
  · intro job h
    have hfind : (m.jobs.find? (fun kv => decide (kv.1 = id))).isSome := by
      unfold JobManager.get_job assocFind at h
      cases hf : m.jobs.find? (fun kv => decide (kv.1 = id)) with
      | none => rw [hf] at h; cases h
      | some kv => rfl
    unfold JobManager.delete_job
    rw [if_pos hfind]
    refine ⟨rfl, ?_, ?_⟩
    · show assocFind (assocRemove m.jobs id) id = none
      exact assocFind_assocRemove_eq m.jobs id
    · intro id2 hid
      show assocFind (assocRemove m.jobs id) id2 = assocFind m.jobs id2
      exact assocFind_assocRemove_ne m.jobs id id2 hid

/-- C7 witness: both halves evaluated on a concrete registry holding one
job, with an absent identifier "nope" and the present identifier "j". -/
theorem c7_witness :
    mgrC7.update_job_status "nope" .failed none none (some "e") 3 = mgrC7 ∧
    mgrC7.delete_job "nope" = (mgrC7, false) ∧
    (mgrC7.delete_job "j").2 = true ∧
    (mgrC7.delete_job "j").1.get_job "j" = none := by
  have ha := (c7_absent_id_noops mgrC7 "nope").1 (by rfl)
  have hp := (c7_absent_id_noops mgrC7 "j").2 (Job.new "j" fiX 0) (by rfl)
  exact ⟨ha.1 .failed none none (some "e") 3, ha.2.2.2, hp.1, hp.2.1⟩

/-! ### C9 — empty or whitespace input fails in every backend -/

/-- C9: for both summarization backends (`OpenAIService` and
`HuggingFaceService`, over every remote/model oracle) and every mode and
length limit, an input that is empty or whitespace-only fails with the
summarization service error and never returns a summary. -/
theorem c9_empty_input_is_service_error
    (client : String → ℚ → Nat → Except String String)
    (model : String → Nat → Nat → Except String String)
    (text : String) (mode : SummaryMode) (max_length : Option Nat)
    (h : pyStrip text = "") :
    OpenAIService.summarize client text mode max_length =
      .error "Cannot summarize empty text" ∧
    HuggingFaceService.summarize model text mode max_length =
      .error "Cannot summarize empty text" := by
  constructor
  · unfold OpenAIService.summarize
    rw [if_pos h]
  · unfold HuggingFaceService.summarize
    rw [if_pos h]

/-- C9 witness: both backends on the whitespace input `"  "`. -/
theorem c9_witness :
    OpenAIService.summarize (fun _ _ _ => .ok "s") "  " .brief none =
      .error "Cannot summarize empty text" ∧
    HuggingFaceService.summarize (fun _ _ _ => .ok "s") "  " .brief none =
      .error "Cannot summarize empty text" :=
  c9_empty_input_is_service_error (fun _ _ _ => .ok "s")
    (fun _ _ _ => .ok "s") "  " .brief none (by rfl)

/-! ### C10 — sticky diagnostics in `Job.update_status` -/

/-- C10: `Job.update_status` always overwrites the state and stamps
`updated_at`; it overwrites `progress` exactly when a progress value is
supplied; a missing or empty `message`/`error_message` argument leaves the
stored value in place, so the stored error message is never cleared. -/
theorem c10_update_status_sticky_fields (j : Job) (st : JobState)
    (p : Option Int) (msg err : Option String) (t : Nat) :
    (j.update_status st p msg err t).status = st ∧
    (j.update_status st p msg err t).updated_at = t ∧
    (p = none → (j.update_status st p msg err t).progress = j.progress) ∧
    (∀ v, p = some v → (j.update_status st p msg err t).progress = v) ∧
    (pyTruthyStr msg = false →
      (j.update_status st p msg err t).message = j.message) ∧
    (pyTruthyStr err = false →
      (j.update_status st p msg err t).error_message = j.error_message) ∧
    (∀ e0, j.error_message = some e0 →
      ∃ e1, (j.update_status st p msg err t).error_message = some e1) := by
  refine ⟨rfl, rfl, ?_, ?_, ?_, ?_, ?_⟩
  · intro hp
    simp [Job.update_status, hp]
  · intro v hp
    simp [Job.update_status, hp]
  · intro hm
    simp [Job.update_status, hm]
  · intro he
    simp [Job.update_status, he]
  · intro e0 h0
    by_cases ht : pyTruthyStr err = true
    · cases err with
      | none => simp [pyTruthyStr] at ht
      | some e => exact ⟨e, by simp [Job.update_status, ht]⟩
    · refine ⟨e0, ?_⟩
      have ht' : pyTruthyStr err = false := by
        cases hb : pyTruthyStr err with
        | false => rfl
        | true => exact absurd hb ht
      simp [Job.update_status, ht', h0]

/-- C10 witness: an update supplying no progress, message or error leaves
all three in place while still restamping state and `updated_at`. -/
theorem c10_witness :
    ((Job.new "j" fiX 0).update_status .processing none none none 5).status =
      .processing ∧
    ((Job.new "j" fiX 0).update_status .processing none none none
      5).updated_at = 5 ∧
    ((Job.new "j" fiX 0).update_status .processing none none none
      5).progress = 0 ∧
    ((Job.new "j" fiX 0).update_status .processing none none none
      5).message = "Job created, awaiting processing" := by
  have h := c10_update_status_sticky_fields (Job.new "j" fiX 0) .processing
    none none none 5
  exact ⟨h.1, h.2.1, h.2.2.1 rfl, h.2.2.2.2.1 rfl⟩

/-! ### Deduplication lemmas (C3, C8) -/

theorem dedupStep_of_none {seen : List ((EntityType × String) × Entity)}
    {e : Entity}
    (h : seen.find? (fun kv => decide (kv.1 = entityKey e)) = none) :
    dedupStep seen e = seen ++ [(entityKey e, e)] := by
  unfold dedupStep
  rw [h]

theorem dedupStep_of_some_lt {seen : List ((EntityType × String) × Entity)}
    {e : Entity} {kv0 : (EntityType × String) × Entity}
    (h : seen.find? (fun kv => decide (kv.1 = entityKey e)) = some kv0)
    (hlt : kv0.2.confidence < e.confidence) :
    dedupStep seen e =
      seen.map (fun kv2 =>
        if kv2.1 = entityKey e then (kv2.1, e) else kv2) := by
  unfold dedupStep
  rw [h]
  exact if_pos hlt

theorem dedupStep_of_some_ge {seen : List ((EntityType × String) × Entity)}
    {e : Entity} {kv0 : (EntityType × String) × Entity}
    (h : seen.find? (fun kv => decide (kv.1 = entityKey e)) = some kv0)
    (hlt : ¬(kv0.2.confidence < e.confidence)) :
    dedupStep seen e = seen := by
  unfold dedupStep
  rw [h]
  exact if_neg hlt

theorem pairwise_key_unique {l : List ((EntityType × String) × Entity)}
    (h : l.Pairwise (fun a b => a.1 ≠ b.1)) :
    ∀ a ∈ l, ∀ b ∈ l, a.1 = b.1 → a = b := by
  induction l with
  | nil => intro a ha; cases ha
  | cons x l ih =>
      rcases List.pairwise_cons.mp h with ⟨hx, hl⟩
      intro a ha b hb hab
      rcases List.mem_cons.mp ha with ha' | ha' <;>
        rcases List.mem_cons.mp hb with hb' | hb'
      · rw [ha', hb']
      · subst ha'
        exact absurd hab (hx b hb')
      · subst hb'
        exact absurd hab.symm (hx a ha')
      · exact ih hl a ha' b hb' hab

theorem dedupStep_keys (seen : List ((EntityType × String) × Entity))
    (e : Entity) (h1 : ∀ kv ∈ seen, kv.1 = entityKey kv.2) :
    ∀ kv ∈ dedupStep seen e, kv.1 = entityKey kv.2 := by
  cases hf : seen.find? (fun kv => decide (kv.1 = entityKey e)) with
  | none =>
      rw [dedupStep_of_none hf]
      intro kv hkv
      rcases List.mem_append.mp hkv with h | h
      · exact h1 kv h
      · rw [List.mem_singleton.mp h]
  | some kv0 =>
      by_cases hlt : kv0.2.confidence < e.confidence
      · rw [dedupStep_of_some_lt hf hlt]
        intro kv hkv
        rcases List.mem_map.mp hkv with ⟨kv2, hkv2, hmap⟩
        by_cases hk : kv2.1 = entityKey e
        · rw [if_pos hk] at hmap
          rw [← hmap, hk]
        · rw [if_neg hk] at hmap
          rw [← hmap]
          exact h1 kv2 hkv2
      · rw [dedupStep_of_some_ge hf hlt]
        exact h1

theorem dedupStep_pairwise (seen : List ((EntityType × String) × Entity))
    (e : Entity)
    (h2 : seen.Pairwise (fun a b => a.1 ≠ b.1)) :
    (dedupStep seen e).Pairwise (fun a b => a.1 ≠ b.1) := by
  cases hf : seen.find? (fun kv => decide (kv.1 = entityKey e)) with
  | none =>
      rw [dedupStep_of_none hf, List.pairwise_append]
      refine ⟨h2, List.pairwise_singleton _ _, ?_⟩
      intro a ha b hb
      rw [List.mem_singleton.mp hb]
      have := List.find?_eq_none.mp hf a ha
      simpa using this
  | some kv0 =>
      by_cases hlt : kv0.2.confidence < e.confidence
      · rw [dedupStep_of_some_lt hf hlt, List.pairwise_map]
        refine h2.imp_of_mem ?_
        intro a b _ _ hab
        split <;> split <;> exact hab
      · rw [dedupStep_of_some_ge hf hlt]
        exact h2

theorem dedupStep_kept (done : List Entity)
    (seen : List ((EntityType × String) × Entity)) (e : Entity)
    (h2 : seen.Pairwise (fun a b => a.1 ≠ b.1))
    (h3 : ∀ kv ∈ seen,
      keptFirstMax (done.filter (fun c => decide (entityKey c = kv.1))) kv.2)
    (h4 : ∀ c ∈ done, ∃ kv ∈ seen, kv.1 = entityKey c) :
    ∀ kv ∈ dedupStep seen e,
      keptFirstMax
        ((done ++ [e]).filter (fun c => decide (entityKey c = kv.1))) kv.2 := by
  cases hf : seen.find? (fun kv => decide (kv.1 = entityKey e)) with
  | none =>
      rw [dedupStep_of_none hf]
      intro kv hkv
      rcases List.mem_append.mp hkv with h | h
      · have hne : ¬(entityKey e = kv.1) := by
          intro hh
          have := List.find?_eq_none.mp hf kv h
          simp [← hh] at this
        rw [List.filter_append]
        have hnil : [e].filter (fun c => decide (entityKey c = kv.1)) = [] := by
          simp [List.filter_singleton, hne]
        rw [hnil, List.append_nil]
        exact h3 kv h
      · rw [List.mem_singleton.mp h]
        have hdone : done.filter (fun c => decide (entityKey c = entityKey e))
            = [] := by
          rw [List.filter_eq_nil_iff]
          intro c hc
          simp only [decide_eq_true_eq]
          intro hkey
          rcases h4 c hc with ⟨kv', hkv', hk⟩
          have := List.find?_eq_none.mp hf kv' hkv'
          simp [hk, hkey] at this
        rw [List.filter_append, hdone, List.nil_append]
        refine ⟨[], [], ?_, ?_, ?_⟩
        · simp [List.filter_singleton]
        · intro c hc; cases hc
        · intro c hc; cases hc
  | some kv0 =>
      have hkv0mem : kv0 ∈ seen := List.mem_of_find?_eq_some hf
      have hkv0key : kv0.1 = entityKey e := by
        have := List.find?_some hf
        simpa using this
      by_cases hlt : kv0.2.confidence < e.confidence
      · rw [dedupStep_of_some_lt hf hlt]
        intro kv hkv
        rcases List.mem_map.mp hkv with ⟨kv2, hkv2, hmap⟩
        by_cases hk : kv2.1 = entityKey e
        · rw [if_pos hk] at hmap
          rw [← hmap]
          rcases h3 kv0 hkv0mem with ⟨l₁, l₂, hgrp, hl₁, hl₂⟩
          rw [List.filter_append, hk]
          refine ⟨done.filter (fun c => decide (entityKey c = entityKey e)),
            [], ?_, ?_, ?_⟩
          · simp [List.filter_singleton]
          · intro c hc
            rw [hkv0key] at hgrp
            rw [hgrp] at hc
            rcases List.mem_append.mp hc with h | h
            · exact lt_trans (hl₁ c h) hlt
            · rcases List.mem_cons.mp h with h | h
              · rw [h]; exact hlt
              · exact lt_of_le_of_lt (hl₂ c h) hlt
          · intro c hc; cases hc
        · rw [if_neg hk] at hmap
          rw [← hmap]
          have hne : ¬(entityKey e = kv2.1) := fun hh => hk hh.symm
          rw [List.filter_append]
          have hnil : [e].filter (fun c => decide (entityKey c = kv2.1)) = []
            := by simp [List.filter_singleton, hne]
          rw [hnil, List.append_nil]
          exact h3 kv2 hkv2
      · rw [dedupStep_of_some_ge hf hlt]
        intro kv hkv
        by_cases hk : kv.1 = entityKey e
        · have hkveq : kv = kv0 :=
            pairwise_key_unique h2 kv hkv kv0 hkv0mem (hk.trans hkv0key.symm)
          rcases h3 kv hkv with ⟨l₁, l₂, hgrp, hl₁, hl₂⟩
          rw [List.filter_append]
          refine ⟨l₁, l₂ ++ [e], ?_, hl₁, ?_⟩
          · rw [hgrp]
            have hone : [e].filter (fun c => decide (entityKey c = kv.1))
                = [e] := by simp [List.filter_singleton, hk]
            rw [hone]
            simp
          · intro c hc
            rcases List.mem_append.mp hc with h | h
            · exact hl₂ c h
            · rw [List.mem_singleton.mp h]
              rw [hkveq]
              exact le_of_not_lt hlt
        · have hne : ¬(entityKey e = kv.1) := fun hh => hk hh.symm
          rw [List.filter_append]
          have hnil : [e].filter (fun c => decide (entityKey c = kv.1)) = []
            := by simp [List.filter_singleton, hne]
          rw [hnil, List.append_nil]
          exact h3 kv hkv

theorem dedupStep_complete (done : List Entity)
    (seen : List ((EntityType × String) × Entity)) (e : Entity)
    (h4 : ∀ c ∈ done, ∃ kv ∈ seen, kv.1 = entityKey c) :
    ∀ c ∈ done ++ [e], ∃ kv ∈ dedupStep seen e, kv.1 = entityKey c := by
  cases hf : seen.find? (fun kv => decide (kv.1 = entityKey e)) with
  | none =>
      rw [dedupStep_of_none hf]
      intro c hc
      rcases List.mem_append.mp hc with h | h
      · rcases h4 c h with ⟨kv, hkv, hk⟩
        exact ⟨kv, List.mem_append.mpr (Or.inl hkv), hk⟩
      · rw [List.mem_singleton.mp h]
        exact ⟨(entityKey e, e), List.mem_append.mpr (Or.inr (by simp)), rfl⟩
  | some kv0 =>
      have hkv0mem : kv0 ∈ seen := List.mem_of_find?_eq_some hf
      have hkv0key : kv0.1 = entityKey e := by
        have := List.find?_some hf
        simpa using this
      by_cases hlt : kv0.2.confidence < e.confidence
      · rw [dedupStep_of_some_lt hf hlt]
        intro c hc
        rcases List.mem_append.mp hc with h | h
        · rcases h4 c h with ⟨kv, hkv, hk⟩
          refine ⟨(if kv.1 = entityKey e then (kv.1, e) else kv), ?_, ?_⟩
          · exact List.mem_map.mpr ⟨kv, hkv, rfl⟩
          · split <;> exact hk
        · rw [List.mem_singleton.mp h]
          refine ⟨(kv0.1, e), ?_, hkv0key⟩
          refine List.mem_map.mpr ⟨kv0, hkv0mem, ?_⟩
          rw [if_pos hkv0key]
      · rw [dedupStep_of_some_ge hf hlt]
        intro c hc
        rcases List.mem_append.mp hc with h | h
        · exact h4 c h
        · rw [List.mem_singleton.mp h]
          exact ⟨kv0, hkv0mem, hkv0key⟩

theorem dedup_fold_inv (todo done : List Entity)
    (seen : List ((EntityType × String) × Entity))
    (h1 : ∀ kv ∈ seen, kv.1 = entityKey kv.2)
    (h2 : seen.Pairwise (fun a b => a.1 ≠ b.1))
    (h3 : ∀ kv ∈ seen,
      keptFirstMax (done.filter (fun c => decide (entityKey c = kv.1))) kv.2)
    (h4 : ∀ c ∈ done, ∃ kv ∈ seen, kv.1 = entityKey c) :
    (∀ kv ∈ todo.foldl dedupStep seen, kv.1 = entityKey kv.2) ∧
    (todo.foldl dedupStep seen).Pairwise (fun a b => a.1 ≠ b.1) ∧
    (∀ kv ∈ todo.foldl dedupStep seen,
      keptFirstMax
        ((done ++ todo).filter (fun c => decide (entityKey c = kv.1))) kv.2) ∧
    (∀ c ∈ done ++ todo,
      ∃ kv ∈ todo.foldl dedupStep seen, kv.1 = entityKey c) := by
  induction todo generalizing done seen with
  | nil =>
      simp only [List.foldl_nil, List.append_nil]
      exact ⟨h1, h2, h3, h4⟩
  | cons e todo ih =>
      have step := ih (done ++ [e]) (dedupStep seen e)
        (dedupStep_keys seen e h1)
        (dedupStep_pairwise seen e h2)
        (dedupStep_kept done seen e h2 h3 h4)
        (dedupStep_complete done seen e h4)
      rw [List.append_assoc] at step
      simpa only [List.foldl_cons, List.singleton_append] using step

/-- The three postconditions of `_deduplicate_entities`: distinct dedup
keys; each survivor is its key group's first highest-confidence candidate;
every candidate key survives. -/
theorem deduplicate_entities_spec (l : List Entity) :
    (deduplicate_entities l).Pairwise
      (fun a b => entityKey a ≠ entityKey b) ∧
    (∀ e ∈ deduplicate_entities l,
      keptFirstMax (l.filter (fun c => decide (entityKey c = entityKey e)))
        e) ∧
    (∀ c ∈ l, ∃ e ∈ deduplicate_entities l, entityKey e = entityKey c) := by
  have inv := dedup_fold_inv l [] []
    (by intro kv hkv; cases hkv)
    List.Pairwise.nil
    (by intro kv hkv; cases hkv)
    (by intro c hc; cases hc)
  rw [List.nil_append] at inv
  rcases inv with ⟨h1, h2, h3, h4⟩
  unfold deduplicate_entities
  refine ⟨?_, ?_, ?_⟩
  · rw [List.pairwise_map]
    refine h2.imp_of_mem ?_
    intro a b ha hb hab
    rw [← h1 a ha, ← h1 b hb]
    exact hab
  · intro e he
    rcases List.mem_map.mp he with ⟨kv, hkv, hsnd⟩
    have := h3 kv hkv
    rw [h1 kv hkv, hsnd] at this
    exact this
  · intro c hc
    rcases h4 c hc with ⟨kv, hkv, hk⟩
    refine ⟨kv.2, List.mem_map.mpr ⟨kv, hkv, rfl⟩, ?_⟩
    rw [← h1 kv hkv]
    exact hk

/-- Every survivor of deduplication is one of the candidates. -/
theorem deduplicate_entities_subset (l : List Entity) :
    ∀ e ∈ deduplicate_entities l, e ∈ l := by
  intro e he
  rcases (deduplicate_entities_spec l).2.1 e he with ⟨l₁, l₂, hgrp, _, _⟩
  have : e ∈ l.filter (fun c => decide (entityKey c = entityKey e)) := by
    rw [hgrp]
    simp
  exact (List.mem_filter.mp this).1

/-! ### C3 — deduplication postcondition of `extract_entities` -/

/-- C3: for every input text and optional type filter (and every recognizer
oracle), the list `extract_entities` returns has no two entities sharing a
(type, verbatim text) key; for each key the survivor is exactly the first
candidate attaining the highest confidence among all candidates with that
key, in the order the passes produce them (regex dates, then regex money,
then recognizer entities), so a strictly-higher-confidence candidate always
wins and confidence ties keep the first one encountered; and every
candidate key is represented in the output. -/
theorem c3_deduplication_postcondition (nlp : String → List SpacyEnt)
    (text : String) (entity_types : Option (List EntityType)) :
    (extract_entities nlp text entity_types).Pairwise
      (fun a b => entityKey a ≠ entityKey b) ∧
    (∀ e ∈ extract_entities nlp text entity_types,
      keptFirstMax
        ((candidate_entities nlp text entity_types).filter
          (fun c => decide (entityKey c = entityKey e))) e) ∧
    (∀ c ∈ candidate_entities nlp text entity_types,
      ∃ e ∈ extract_entities nlp text entity_types,
        entityKey e = entityKey c) :=
  deduplicate_entities_spec (candidate_entities nlp text entity_types)

/-- C3 witness: on a concrete text the recognizer's "Paris" span key
survives into the output. -/
theorem c3_witness :
    ∃ e ∈ extract_entities nlpC3 "Paris on 2025-02-13" none,
      entityKey e =
        entityKey ⟨.location, "Paris", some (.str "Paris"), confSpacy⟩ :=
  (c3_deduplication_postcondition nlpC3 "Paris on 2025-02-13" none).2.2
    ⟨.location, "Paris", some (.str "Paris"), confSpacy⟩ (by decide)

/-! ### Per-pass shape lemmas (C8) -/

theorem dateStep_shape (acc : List String × List Entity) (m : String)
    (h : ∀ e ∈ acc.2,
      e.type = .date ∧ e.value = (parseDate e.text).map EValue.str) :
    ∀ e ∈ (dateStep acc m).2,
      e.type = .date ∧ e.value = (parseDate e.text).map EValue.str := by
  unfold dateStep
  by_cases hm : m ∈ acc.1
  · rw [if_pos hm]
    exact h
  · rw [if_neg hm]
    intro e he
    rcases List.mem_append.mp he with h' | h'
    · exact h e h'
    · rw [List.mem_singleton.mp h']
      exact ⟨rfl, rfl⟩

theorem foldl_dateStep_shape (ms : List String) (acc : List String × List Entity)
    (h : ∀ e ∈ acc.2,
      e.type = .date ∧ e.value = (parseDate e.text).map EValue.str) :
    ∀ e ∈ (ms.foldl dateStep acc).2,
      e.type = .date ∧ e.value = (parseDate e.text).map EValue.str := by
  induction ms generalizing acc with
  | nil => exact h
  | cons m ms ih => exact ih (dateStep acc m) (dateStep_shape acc m h)

theorem extract_dates_shape (text : String) :
    ∀ e ∈ extract_dates text,
      e.type = .date ∧ e.value = (parseDate e.text).map EValue.str := by
  unfold extract_dates
  generalize hpats : datePatterns = pats
  have : ∀ (pats : List RE) (acc : List String × List Entity),
      (∀ e ∈ acc.2,
        e.type = .date ∧ e.value = (parseDate e.text).map EValue.str) →
      ∀ e ∈ (pats.foldl
          (fun acc pat => (findIter pat text).foldl dateStep acc) acc).2,
        e.type = .date ∧ e.value = (parseDate e.text).map EValue.str := by
    intro pats
    induction pats with
    | nil => intro acc h; exact h
    | cons p ps ih =>
        intro acc h
        exact ih _ (foldl_dateStep_shape (findIter p text) acc h)
  exact this pats ([], []) (by intro e he; cases he)

theorem moneyStep_shape (acc : List String × List Entity) (m : String)
    (h : ∀ e ∈ acc.2,
      e.type = .money ∧ e.value = (parseMoney e.text).map EValue.num) :
    ∀ e ∈ (moneyStep acc m).2,
      e.type = .money ∧ e.value = (parseMoney e.text).map EValue.num := by
  unfold moneyStep
  by_cases hm : m ∈ acc.1
  · rw [if_pos hm]
    exact h
  · rw [if_neg hm]
    intro e he
    rcases List.mem_append.mp he with h' | h'
    · exact h e h'
    · rw [List.mem_singleton.mp h']
      exact ⟨rfl, rfl⟩

theorem foldl_moneyStep_shape (ms : List String)
    (acc : List String × List Entity)
    (h : ∀ e ∈ acc.2,
      e.type = .money ∧ e.value = (parseMoney e.text).map EValue.num) :
    ∀ e ∈ (ms.foldl moneyStep acc).2,
      e.type = .money ∧ e.value = (parseMoney e.text).map EValue.num := by
  induction ms generalizing acc with
  | nil => exact h
  | cons m ms ih => exact ih (moneyStep acc m) (moneyStep_shape acc m h)

theorem extract_money_shape (text : String) :
    ∀ e ∈ extract_money text,
      e.type = .money ∧ e.value = (parseMoney e.text).map EValue.num := by
  unfold extract_money
  generalize hpats : moneyPatterns = pats
  have : ∀ (pats : List RE) (acc : List String × List Entity),
      (∀ e ∈ acc.2,
        e.type = .money ∧ e.value = (parseMoney e.text).map EValue.num) →
      ∀ e ∈ (pats.foldl
          (fun acc pat => (findIter pat text).foldl moneyStep acc) acc).2,
        e.type = .money ∧ e.value = (parseMoney e.text).map EValue.num := by
    intro pats
    induction pats with
    | nil => intro acc h; exact h
    | cons p ps ih =>
        intro acc h
        exact ih _ (foldl_moneyStep_shape (findIter p text) acc h)
  exact this pats ([], []) (by intro e he; cases he)

theorem labelMapping_cases (l : String) (ety : EntityType)
    (h : labelMapping l = some ety) :
    ety = .person ∨ ety = .organization ∨ ety = .location := by
  unfold labelMapping at h
  split_ifs at h <;> cases h <;> simp

theorem reclassify_entity_cases (t : String) (ety : EntityType)
    (h : ety = .person ∨ ety = .organization ∨ ety = .location) :
    reclassify_entity t ety = .person ∨
    reclassify_entity t ety = .organization ∨
    reclassify_entity t ety = .location := by
  unfold reclassify_entity
  split_ifs with hg
  · right; right; rfl
  · exact h

theorem extract_spacy_entities_shape (nlp : String → List SpacyEnt)
    (text : String) (ets : List EntityType) :
    ∀ e ∈ extract_spacy_entities nlp text ets,
      (e.type = .person ∨ e.type = .organization ∨ e.type = .location) ∧
      e.value = some (.str e.text) := by
  unfold extract_spacy_entities
  generalize hents : nlp text = ents
  have : ∀ (ents : List SpacyEnt) (acc : List Entity),
      (∀ e ∈ acc,
        (e.type = .person ∨ e.type = .organization ∨
          e.type = .location) ∧ e.value = some (.str e.text)) →
      ∀ e ∈ ents.foldl (fun acc ent =>
          match labelMapping ent.label with
          | some ety =>
              if ety ∈ ets then
                if should_keep_entity ent.text ety then
                  acc ++ [⟨reclassify_entity ent.text ety, ent.text,
                           some (.str ent.text), confSpacy⟩]
                else acc
              else acc
          | none => acc) acc,
        (e.type = .person ∨ e.type = .organization ∨
          e.type = .location) ∧ e.value = some (.str e.text) := by
    intro ents
    induction ents with
    | nil => intro acc h; exact h
    | cons ent ents ih =>
        intro acc h
        apply ih
        cases hl : labelMapping ent.label with
        | none => simpa [hl] using h
        | some ety =>
            simp only [hl]
            by_cases h1 : ety ∈ ets
            · by_cases h2 : should_keep_entity ent.text ety
              · rw [if_pos h1, if_pos h2]
                intro e he
                rcases List.mem_append.mp he with h' | h'
                · exact h e h'
                · rw [List.mem_singleton.mp h']
                  exact ⟨reclassify_entity_cases ent.text ety
                    (labelMapping_cases ent.label ety hl), rfl⟩
              · rw [if_pos h1, if_neg h2]
                exact h
            · rw [if_neg h1]
              exact h
  exact this ents [] (by intro e he; cases he)

/-- Every candidate entity carries the normalized value its pass computed:
date candidates the ISO re-parse of their matched text, money candidates
the numeric parse, recognizer candidates their verbatim text. -/
theorem candidate_entities_shape (nlp : String → List SpacyEnt)
    (text : String) (entity_types : Option (List EntityType)) :
    ∀ e ∈ candidate_entities nlp text entity_types,
      (e.type = .date → e.value = (parseDate e.text).map EValue.str) ∧
      (e.type = .money → e.value = (parseMoney e.text).map EValue.num) ∧
      ((e.type = .person ∨ e.type = .organization ∨ e.type = .location) →
        e.value = some (.str e.text)) := by
  intro e he
  unfold candidate_entities at he
  by_cases hblank : pyStrip text = ""
  · rw [if_pos hblank] at he
    cases he
  · rw [if_neg hblank] at he
    simp only at he
    revert he
    generalize ((match entity_types with
      | some (t :: ts) => t :: ts
      | _ => allEntityTypes) : List EntityType) = tte
    intro he
    rcases List.mem_append.mp he with he' | hspacy
    · rcases List.mem_append.mp he' with hdate | hmoney
      · have hd : e ∈ extract_dates text := by
          by_cases hc : EntityType.date ∈ tte
          · rwa [if_pos hc] at hdate
          · rw [if_neg hc] at hdate
            cases hdate
        have hs := extract_dates_shape text e hd
        refine ⟨fun _ => hs.2, fun hm => ?_, fun hp => ?_⟩
        · rw [hs.1] at hm
          exact absurd hm (by decide)
        · rcases hp with hp | hp | hp <;> rw [hs.1] at hp <;>
            exact absurd hp (by decide)
      · have hd : e ∈ extract_money text := by
          by_cases hc : EntityType.money ∈ tte
          · rwa [if_pos hc] at hmoney
          · rw [if_neg hc] at hmoney
            cases hmoney
        have hs := extract_money_shape text e hd
        refine ⟨fun hm => ?_, fun _ => hs.2, fun hp => ?_⟩
        · rw [hs.1] at hm
          exact absurd hm (by decide)
        · rcases hp with hp | hp | hp <;> rw [hs.1] at hp <;>
            exact absurd hp (by decide)
    · have hd : ∃ ets', e ∈ extract_spacy_entities nlp text ets' := by
        by_cases hc : (!(tte.filter
              (fun t => decide (t = EntityType.person) ||
                decide (t = EntityType.organization) ||
                decide (t = EntityType.location)) = [])) = true
        · rw [if_pos hc] at hspacy
          exact ⟨_, hspacy⟩
        · rw [if_neg hc] at hspacy
          cases hspacy
      rcases hd with ⟨ets', hmem⟩
      have hs := extract_spacy_entities_shape nlp text ets' e hmem
      refine ⟨fun hm => ?_, fun hm => ?_, fun _ => hs.2⟩
      · rcases hs.1 with hp | hp | hp <;> rw [hp] at hm <;>
          exact absurd hm (by decide)
      · rcases hs.1 with hp | hp | hp <;> rw [hp] at hm <;>
          exact absurd hm (by decide)

/-! ### C8 — entity value normalization -/

/-- C8: every entity `extract_entities` returns carries, when present, the
normalized representation of its verbatim text — for date entities the ISO
`YYYY-MM-DD` rendering of the re-parse of the matched text (absent exactly
when no date layout parses it, since `Option.map` preserves `none`), for
money entities the numeric parse of the cleaned text (absent exactly when
the parse fails), and for recognizer entities (person / organization /
location) the value is always present and is the verbatim text itself. -/
theorem c8_value_normalization (nlp : String → List SpacyEnt) (text : String)
    (entity_types : Option (List EntityType)) (e : Entity)
    (h : e ∈ extract_entities nlp text entity_types) :
    (e.type = .date → e.value = (parseDate e.text).map EValue.str) ∧
    (e.type = .money → e.value = (parseMoney e.text).map EValue.num) ∧
    ((e.type = .person ∨ e.type = .organization ∨ e.type = .location) →
      e.value = some (.str e.text)) :=
  candidate_entities_shape nlp text entity_types e
    (deduplicate_entities_subset _ e h)

/-- C8 witness: the date entity extracted from "2025-02-13" carries exactly
the re-parsed ISO value. -/
theorem c8_witness :
    (⟨.date, "2025-02-13", some (.str "2025-02-13"), confDate⟩ : Entity).value
      = (parseDate "2025-02-13").map EValue.str := by
  have h := c8_value_normalization nlpEmpty "2025-02-13" none
    ⟨.date, "2025-02-13", some (.str "2025-02-13"), confDate⟩ (by decide)
  exact h.1 rfl

/-! ### C4 — date normalization on the two claimed inputs -/

/-- C4 evaluation: on `"February 13, 2025"` the extractor emits the date
entity but `_parse_date` fails — `replace(',', '')` strips the comma, after
which the `"%b %d %Y"` layout rejects the full month name and the
`"%B %d, %Y"` layout demands a comma that is no longer there — so the
normalized value is absent, contradicting the claim that it equals
`"2025-02-13"`.  On `"2025-02-13"` the ISO layout parses and the value is
`"2025-02-13"` as claimed. -/
theorem c4_code_evaluation :
    extract_entities nlpEmpty "February 13, 2025" none =
      [⟨.date, "February 13, 2025", none, confDate⟩] ∧
    extract_entities nlpEmpty "2025-02-13" none =
      [⟨.date, "2025-02-13", some (.str "2025-02-13"), confDate⟩] ∧
    parseDate "February 13, 2025" = none ∧
    parseDate "2025-02-13" = some "2025-02-13" := by
  exact ⟨by decide, by decide, by decide, by decide⟩

/-! ### Script-shape lemmas (C1, C2) -/

theorem scriptOK_tail {op : RegOp} {rest : List RegOp}
    (h : ScriptOK (op :: rest)) (hne : ¬(rest = [])) : ScriptOK rest := by
  cases rest with
  | nil => exact absurd rfl hne
  | cons op2 rs => exact h.2

theorem scriptOK_head_mid {op : RegOp} {rest : List RegOp}
    (h : ScriptOK (op :: rest)) (hne : ¬(rest = [])) : midOp op := by
  cases rest with
  | nil => exact absurd rfl hne
  | cons op2 rs => exact h.1

theorem scriptOK_head_term {op : RegOp} {rest : List RegOp}
    (h : ScriptOK (op :: rest)) (he : rest = []) : termOp op := by
  subst he
  exact h

theorem scriptOK_scriptTail (mode : SummaryMode) (backend : LLMBackend)
    (ex : ExtractOk) (ents : List Entity) (so : Except String SummaryOk) :
    ScriptOK (scriptTail mode backend ex ents so) := by
  cases so with
  | error e => exact ⟨rfl, Or.inr rfl⟩
  | ok s => exact ⟨rfl, ⟨rfl, ⟨trivial, Or.inl rfl⟩⟩⟩

theorem scriptOK_mkScript (flag : Bool) (mode : SummaryMode)
    (backend : LLMBackend) (eo : Except String ExtractOk)
    (no : Except String (List Entity)) (so : Except String SummaryOk) :
    ScriptOK (mkScript flag mode backend eo no so) := by
  cases eo with
  | error e => exact ⟨rfl, Or.inr rfl⟩
  | ok ex =>
      cases flag with
      | false => exact ⟨rfl, scriptOK_scriptTail mode backend ex [] so⟩
      | true =>
          cases no with
          | error e => exact ⟨rfl, rfl, Or.inr rfl⟩
          | ok ents =>
              exact ⟨rfl, rfl, scriptOK_scriptTail mode backend ex ents so⟩

theorem opErrOnlyFail_scriptTail (mode : SummaryMode) (backend : LLMBackend)
    (ex : ExtractOk) (ents : List Entity) (so : Except String SummaryOk) :
    ∀ op ∈ scriptTail mode backend ex ents so, opErrOnlyFail op := by
  cases so with
  | error e =>
      intro op hop
      rcases List.mem_cons.mp hop with h | h
      · subst h; intro e0 he0; cases he0
      · rw [List.mem_singleton.mp h]
        intro e0 _
        rfl
  | ok s =>
      intro op hop
      rcases List.mem_cons.mp hop with h | h
      · subst h; intro e0 he0; cases he0
      · rcases List.mem_cons.mp h with h' | h'
        · subst h'; intro e0 he0; cases he0
        · rcases List.mem_cons.mp h' with h'' | h''
          · subst h''; trivial
          · rw [List.mem_singleton.mp h'']
            intro e0 he0
            cases he0

theorem opErrOnlyFail_mkScript (flag : Bool) (mode : SummaryMode)
    (backend : LLMBackend) (eo : Except String ExtractOk)
    (no : Except String (List Entity)) (so : Except String SummaryOk) :
    ∀ op ∈ mkScript flag mode backend eo no so, opErrOnlyFail op := by
  intro op hop
  rcases List.mem_cons.mp hop with h | h
  · subst h; intro e0 he0; cases he0
  · cases eo with
    | error e =>
        rw [List.mem_singleton.mp h]
        intro e0 _
        rfl
    | ok ex =>
        cases flag with
        | false => exact opErrOnlyFail_scriptTail mode backend ex [] so op h
        | true =>
            rcases List.mem_cons.mp h with h' | h'
            · subst h'; intro e0 he0; cases he0
            · cases no with
              | error e =>
                  rw [List.mem_singleton.mp h']
                  intro e0 _
                  rfl
              | ok ents =>
                  exact opErrOnlyFail_scriptTail mode backend ex ents so op h'

theorem opFailHasErr_scriptTail (mode : SummaryMode) (backend : LLMBackend)
    (ex : ExtractOk) (ents : List Entity) (so : Except String SummaryOk)
    (hso : ∀ e, so = .error e → ¬(e = "")) :
    ∀ op ∈ scriptTail mode backend ex ents so, opFailHasErr op := by
  cases so with
  | error e =>
      intro op hop
      rcases List.mem_cons.mp hop with h | h
      · subst h; intro he0; cases he0
      · rw [List.mem_singleton.mp h]
        intro _
        exact ⟨e, rfl, hso e rfl⟩
  | ok s =>
      intro op hop
      rcases List.mem_cons.mp hop with h | h
      · subst h; intro he0; cases he0
      · rcases List.mem_cons.mp h with h' | h'
        · subst h'; intro he0; cases he0
        · rcases List.mem_cons.mp h' with h'' | h''
          · subst h''; trivial
          · rw [List.mem_singleton.mp h'']
            intro he0
            cases he0

theorem opFailHasErr_mkScript (flag : Bool) (mode : SummaryMode)
    (backend : LLMBackend) (eo : Except String ExtractOk)
    (no : Except String (List Entity)) (so : Except String SummaryOk)
    (heo : ∀ e, eo = .error e → ¬(e = ""))
    (hno : ∀ e, no = .error e → ¬(e = ""))
    (hso : ∀ e, so = .error e → ¬(e = "")) :
    ∀ op ∈ mkScript flag mode backend eo no so, opFailHasErr op := by
  intro op hop
  rcases List.mem_cons.mp hop with h | h
  · subst h; intro he0; cases he0
  · cases eo with
    | error e =>
        rw [List.mem_singleton.mp h]
        intro _
        exact ⟨e, rfl, heo e rfl⟩
    | ok ex =>
        cases flag with
        | false => exact opFailHasErr_scriptTail mode backend ex [] so hso op h
        | true =>
            rcases List.mem_cons.mp h with h' | h'
            · subst h'; intro he0; cases he0
            · cases no with
              | error e =>
                  rw [List.mem_singleton.mp h']
                  intro _
                  exact ⟨e, rfl, hno e rfl⟩
              | ok ents =>
                  exact opFailHasErr_scriptTail mode backend ex ents so hso
                    op h'

/-! ### Step-semantics lemmas -/

theorem applyStep_create_stale {S : SysState} {id0 : String} {fi : FileInfo}
    {t : Nat}
    (h : ((S.mgr.get_job id0).isSome || (tasksGet S.tasks id0).isSome)
      = true) :
    applyStep S (.create id0 fi t) = S := by
  dsimp only [applyStep]
  rw [if_pos h]

theorem applyStep_create_fresh {S : SysState} {id0 : String} {fi : FileInfo}
    {t : Nat}
    (h : ¬(((S.mgr.get_job id0).isSome || (tasksGet S.tasks id0).isSome)
      = true)) :
    applyStep S (.create id0 fi t) =
      { S with mgr := S.mgr.create_job id0 fi t } := by
  dsimp only [applyStep]
  rw [if_neg h]

theorem applyStep_start_nodispatch {S : SysState} {req : ProcessRequest}
    {eo : Except String ExtractOk} {no : Except String (List Entity)}
    {so : Except String SummaryOk} {t : Nat}
    (h : ¬((process_pdf S.mgr req t).2.2 = true)) :
    applyStep S (.startJob req eo no so t) =
      { S with mgr := (process_pdf S.mgr req t).1 } := by
  dsimp only [applyStep]
  rw [if_neg h]

theorem applyStep_start_dispatch {S : SysState} {req : ProcessRequest}
    {eo : Except String ExtractOk} {no : Except String (List Entity)}
    {so : Except String SummaryOk} {t : Nat}
    (h : (process_pdf S.mgr req t).2.2 = true) :
    applyStep S (.startJob req eo no so t) =
      { mgr := (process_pdf S.mgr req t).1,
        tasks := tasksSet S.tasks req.job_id
          (mkScript req.extract_entities req.summary_mode req.llm_backend
            eo no so) } := by
  dsimp only [applyStep]
  rw [if_pos h]

theorem applyStep_bg_none {S : SysState} {id0 : String} {t : Nat}
    (h : tasksGet S.tasks id0 = none) :
    applyStep S (.bg id0 t) = S := by
  dsimp only [applyStep]
  rw [h]

theorem applyStep_bg_nil {S : SysState} {id0 : String} {t : Nat}
    (h : tasksGet S.tasks id0 = some []) :
    applyStep S (.bg id0 t) = S := by
  dsimp only [applyStep]
  rw [h]

theorem applyStep_bg_cons {S : SysState} {id0 : String} {t : Nat}
    {op : RegOp} {rest : List RegOp}
    (h : tasksGet S.tasks id0 = some (op :: rest)) :
    applyStep S (.bg id0 t) =
      { mgr := applyOp S.mgr id0 t op,
        tasks := if rest = [] then tasksRemove S.tasks id0
                 else tasksSet S.tasks id0 rest } := by
  dsimp only [applyStep]
  rw [h]

theorem runTrace_append_one (tr : List Step) (st : Step) :
    runTrace (tr ++ [st]) = applyStep (runTrace tr) st := by
  unfold runTrace
  rw [List.foldl_append]
  rfl

/-- `process_pdf` either performs no registry mutation and dispatches
nothing, or the job exists, is neither `Processing` nor `Completed`, and the
handler stores the config, stamps `Processing` at progress 5 and
dispatches. -/
theorem process_pdf_spec (m : JobManager) (req : ProcessRequest) (t : Nat) :
    ((process_pdf m req t).2.2 = false ∧ (process_pdf m req t).1 = m) ∨
    (∃ job, m.get_job req.job_id = some job ∧
      ¬(job.status = .processing) ∧ ¬(job.status = .completed) ∧
      (process_pdf m req t).2.2 = true ∧
      (process_pdf m req t).1 =
        (m.set_job_processing_config req.job_id job.file_info.file_path
          req.summary_mode.value req.llm_backend.value req.extract_entities
          (pyEntityTypeValues req.entity_types)).update_job_status
          req.job_id .processing (some 5) (some "Processing started") none
          t) := by
  unfold process_pdf
  split
  · exact Or.inl ⟨rfl, rfl⟩
  · rename_i job heq
    split
    · exact Or.inl ⟨rfl, rfl⟩
    · rename_i hp
      split
      · exact Or.inl ⟨rfl, rfl⟩
      · rename_i hc
        exact Or.inr ⟨job, heq, hp, hc, rfl, rfl⟩

theorem get_job_applyOp_other (m : JobManager) (id0 : String) (t : Nat)
    (op : RegOp) (id : String) (h : ¬(id = id0)) :
    (applyOp m id0 t op).get_job id = m.get_job id := by
  cases op with
  | upd st p msg err =>
      show (m.update_job_status id0 st p msg err t).get_job id = m.get_job id
      rw [get_job_update_status, if_neg h]
  | setRes r =>
      show (m.set_job_results id0 r).get_job id = m.get_job id
      rw [get_job_set_results, if_neg h]

theorem get_job_applyOp_upd (m : JobManager) (id0 : String) (t : Nat)
    (st : JobState) (p : Option Int) (msg err : Option String) :
    (applyOp m id0 t (.upd st p msg err)).get_job id0 =
      (m.get_job id0).map (fun j => j.update_status st p msg err t) := by
  show (m.update_job_status id0 st p msg err t).get_job id0 = _
  rw [get_job_update_status, if_pos rfl]

theorem get_job_applyOp_setRes (m : JobManager) (id0 : String) (t : Nat)
    (r : Results) :
    ((applyOp m id0 t (.setRes r)).get_job id0).map
        (fun j => (j.status, j.error_message)) =
      (m.get_job id0).map (fun j => (j.status, j.error_message)) := by
  show ((m.set_job_results id0 r).get_job id0).map _ = _
  rw [get_job_set_results, if_pos rfl]
  cases m.get_job id0 <;> rfl

/-- The manager `process_pdf` leaves behind when it dispatches: job `jid`
gets its config stored and is stamped `Processing`; every other job is
untouched. -/
theorem get_job_dispatched (m : JobManager) (req : ProcessRequest) (t : Nat)
    (job : Job) (hj : m.get_job req.job_id = some job) (id : String) :
    ((m.set_job_processing_config req.job_id job.file_info.file_path
        req.summary_mode.value req.llm_backend.value req.extract_entities
        (pyEntityTypeValues req.entity_types)).update_job_status
        req.job_id .processing (some 5) (some "Processing started") none
        t).get_job id =
      if id = req.job_id then
        some (({ job with
          pdf_path := some job.file_info.file_path
          summary_mode := some req.summary_mode.value
          llm_backend := some req.llm_backend.value
          extract_entities := req.extract_entities
          entity_types := pyEntityTypeValues req.entity_types
          }).update_status .processing
          (some 5) (some "Processing started") none t)
      else m.get_job id := by
  rw [get_job_update_status]
  by_cases hid : id = req.job_id
  · rw [if_pos hid, if_pos hid, get_job_set_config, if_pos rfl, hj]
    rfl
  · rw [if_neg hid, if_neg hid, get_job_set_config, if_neg hid]

theorem get_job_setRes_status (m : JobManager) (id0 : String) (t : Nat)
    (r : Results) :
    ((applyOp m id0 t (.setRes r)).get_job id0).map Job.status =
      (m.get_job id0).map Job.status := by
  show ((m.set_job_results id0 r).get_job id0).map _ = _
  rw [get_job_set_results, if_pos rfl]
  cases m.get_job id0 <;> rfl

theorem get_job_setRes_error (m : JobManager) (id0 : String) (t : Nat)
    (r : Results) :
    ((applyOp m id0 t (.setRes r)).get_job id0).map Job.error_message =
      (m.get_job id0).map Job.error_message := by
  show ((m.set_job_results id0 r).get_job id0).map _ = _
  rw [get_job_set_results, if_pos rfl]
  cases m.get_job id0 <;> rfl

/-! ### The C1 reachability invariant -/

theorem invC1_init : InvC1 initState := by
  intro id ops htask
  cases htask

theorem invC1_step (S : SysState) (st : Step) (h : InvC1 S) :
    InvC1 (applyStep S st) := by
  cases st with
  | create id0 fi t =>
      by_cases hg : ((S.mgr.get_job id0).isSome ||
          (tasksGet S.tasks id0).isSome) = true
      · rw [applyStep_create_stale hg]
        exact h
      · rw [applyStep_create_fresh hg]
        intro id ops htask
        dsimp only at htask
        have hold := h id ops htask
        refine ⟨hold.1, ?_⟩
        have hne : ¬(id = id0) := by
          intro hid
          subst hid
          simp only [Bool.or_eq_true, not_or] at hg
          exact hg.2 (by rw [htask]; rfl)
        show ((S.mgr.create_job id0 fi t).get_job id).map Job.status = _
        rw [get_job_create, if_neg hne]
        exact hold.2
  | startJob req eo no so t =>
      rcases process_pdf_spec S.mgr req t with ⟨hnd, heq⟩ |
        ⟨job, hj, _, _, hd, heq⟩
      · have hnd' : ¬((process_pdf S.mgr req t).2.2 = true) := by
          rw [hnd]
          exact Bool.false_ne_true
        rw [applyStep_start_nodispatch hnd']
        intro id ops htask
        dsimp only at htask
        have hold := h id ops htask
        refine ⟨hold.1, ?_⟩
        show (((process_pdf S.mgr req t).1).get_job id).map Job.status = _
        rw [heq]
        exact hold.2
      · rw [applyStep_start_dispatch hd]
        intro id ops htask
        dsimp only at htask
        rw [tasksGet_tasksSet] at htask
        by_cases hid : id = req.job_id
        · rw [if_pos hid] at htask
          injection htask with hops
          subst hops
          refine ⟨scriptOK_mkScript _ _ _ _ _ _, ?_⟩
          show (((process_pdf S.mgr req t).1).get_job id).map Job.status =
            some .processing
          rw [heq, get_job_dispatched S.mgr req t job hj, if_pos hid]
          rfl
        · rw [if_neg hid] at htask
          have hold := h id ops htask
          refine ⟨hold.1, ?_⟩
          show (((process_pdf S.mgr req t).1).get_job id).map Job.status = _
          rw [heq, get_job_dispatched S.mgr req t job hj, if_neg hid]
          exact hold.2
  | bg id0 t =>
      cases htask0 : tasksGet S.tasks id0 with
      | none =>
          rw [applyStep_bg_none htask0]
          exact h
      | some ops0 =>
          cases ops0 with
          | nil =>
              rw [applyStep_bg_nil htask0]
              exact h
          | cons op rest =>
              rw [applyStep_bg_cons htask0]
              have hold := h id0 (op :: rest) htask0
              intro id ops htask
              dsimp only at htask
              by_cases hrest : rest = []
              · rw [if_pos hrest, tasksGet_tasksRemove] at htask
                by_cases hid : id = id0
                · rw [if_pos hid] at htask
                  cases htask
                · rw [if_neg hid] at htask
                  have ho := h id ops htask
                  refine ⟨ho.1, ?_⟩
                  show ((applyOp S.mgr id0 t op).get_job id).map Job.status
                    = _
                  rw [get_job_applyOp_other S.mgr id0 t op id hid]
                  exact ho.2
              · rw [if_neg hrest, tasksGet_tasksSet] at htask
                by_cases hid : id = id0
                · rw [if_pos hid] at htask
                  injection htask with hops
                  subst hops
                  subst hid
                  refine ⟨scriptOK_tail hold.1 hrest, ?_⟩
                  have hmid := scriptOK_head_mid hold.1 hrest
                  cases op with
                  | upd st' p msg err =>
                      have hst' : st' = .processing := hmid
                      show ((applyOp S.mgr id t
                        (.upd st' p msg err)).get_job id).map Job.status = _
                      rw [get_job_applyOp_upd]
                      cases hmap : S.mgr.get_job id with
                      | none =>
                          rw [hmap] at hold
                          cases hold.2
                      | some j =>
                          rw [hst']
                          rfl
                  | setRes r =>
                      show ((applyOp S.mgr id t (.setRes r)).get_job id).map
                        Job.status = _
                      rw [get_job_setRes_status]
                      exact hold.2
                · rw [if_neg hid] at htask
                  have ho := h id ops htask
                  refine ⟨ho.1, ?_⟩
                  show ((applyOp S.mgr id0 t op).get_job id).map Job.status
                    = _
                  rw [get_job_applyOp_other S.mgr id0 t op id hid]
                  exact ho.2

theorem invC1_run_aux (tr : List Step) (S : SysState) (h : InvC1 S) :
    InvC1 (tr.foldl applyStep S) := by
  induction tr generalizing S with
  | nil => exact h
  | cons st tr ih => exact ih (applyStep S st) (invC1_step S st h)

theorem invC1_run (tr : List Step) : InvC1 (runTrace tr) :=
  invC1_run_aux tr initState invC1_init

theorem step_transition (S : SysState) (st : Step) (hInv : InvC1 S)
    (id : String) (s₁ s₂ : JobState)
    (h₁ : (S.mgr.get_job id).map Job.status = some s₁)
    (h₂ : ((applyStep S st).mgr.get_job id).map Job.status = some s₂) :
    allowedTransition s₁ s₂ := by
  cases st with
  | create id0 fi t =>
      by_cases hg : ((S.mgr.get_job id0).isSome ||
          (tasksGet S.tasks id0).isSome) = true
      · rw [applyStep_create_stale hg, h₁] at h₂
        injection h₂ with h₂
        exact Or.inl h₂
      · rw [applyStep_create_fresh hg] at h₂
        dsimp only at h₂
        have hne : ¬(id = id0) := by
          intro hid
          subst hid
          simp only [Bool.or_eq_true, not_or] at hg
          cases hmap : S.mgr.get_job id with
          | none => rw [hmap] at h₁; cases h₁
          | some j => exact hg.1 (by rw [hmap]; rfl)
        rw [get_job_create, if_neg hne, h₁] at h₂
        injection h₂ with h₂
        exact Or.inl h₂
  | startJob req eo no so t =>
      rcases process_pdf_spec S.mgr req t with ⟨hnd, heq⟩ |
        ⟨job, hj, hp, hc, hd, heq⟩
      · have hnd' : ¬((process_pdf S.mgr req t).2.2 = true) := by
          rw [hnd]
          exact Bool.false_ne_true
        rw [applyStep_start_nodispatch hnd'] at h₂
        dsimp only at h₂
        rw [heq, h₁] at h₂
        injection h₂ with h₂
        exact Or.inl h₂
      · rw [applyStep_start_dispatch hd] at h₂
        dsimp only at h₂
        rw [heq, get_job_dispatched S.mgr req t job hj] at h₂
        by_cases hid : id = req.job_id
        · rw [if_pos hid] at h₂
          have hs₂ : s₂ = .processing := by
            injection h₂ with h₂
            exact h₂.symm
          have hs₁ : s₁ = job.status := by
            rw [hid] at h₁
            rw [hj] at h₁
            injection h₁ with h₁
            exact h₁.symm
          subst hs₂
          subst hs₁
          cases hjs : job.status with
          | pending => exact Or.inr (Or.inl ⟨rfl, rfl⟩)
          | processing => exact absurd hjs hp
          | completed => exact absurd hjs hc
          | failed =>
              exact Or.inr (Or.inr (Or.inr (Or.inr ⟨rfl, rfl⟩)))
        · rw [if_neg hid, h₁] at h₂
          injection h₂ with h₂
          exact Or.inl h₂
  | bg id0 t =>
      cases htask0 : tasksGet S.tasks id0 with
      | none =>
          rw [applyStep_bg_none htask0, h₁] at h₂
          injection h₂ with h₂
          exact Or.inl h₂
      | some ops0 =>
          cases ops0 with
          | nil =>
              rw [applyStep_bg_nil htask0, h₁] at h₂
              injection h₂ with h₂
              exact Or.inl h₂
          | cons op rest =>
              rw [applyStep_bg_cons htask0] at h₂
              dsimp only at h₂
              by_cases hid : id = id0
              · subst hid
                have hold := hInv id (op :: rest) htask0
                have hs₁ : s₁ = .processing := by
                  rw [hold.2] at h₁
                  injection h₁ with h₁
                  exact h₁.symm
                subst hs₁
                cases op with
                | upd st' p msg err =>
                    rw [get_job_applyOp_upd] at h₂
                    cases hmap : S.mgr.get_job id with
                    | none => rw [hmap] at h₁; cases h₁
                    | some j =>
                        rw [hmap] at h₂
                        have hs₂ : s₂ = st' := by
                          injection h₂ with h₂
                          exact h₂.symm
                        subst hs₂
                        by_cases hrest : rest = []
                        · have hterm := scriptOK_head_term hold.1 hrest
                          rcases hterm with ht | ht
                          · rw [ht]
                            exact Or.inr (Or.inr (Or.inl ⟨rfl, rfl⟩))
                          · rw [ht]
                            exact Or.inr (Or.inr (Or.inr (Or.inl
                              ⟨rfl, rfl⟩)))
                        · have hmid := scriptOK_head_mid hold.1 hrest
                          rw [hmid]
                          exact Or.inl rfl
                | setRes r =>
                    rw [get_job_setRes_status, hold.2] at h₂
                    injection h₂ with h₂
                    exact Or.inl h₂
              · rw [get_job_applyOp_other S.mgr id0 t op id hid, h₁] at h₂
                injection h₂ with h₂
                exact Or.inl h₂

/-! ### C1 — job-lifecycle state machine -/

/-- C1 counterexample: a job observed `Failed` (after a run whose extraction
stage raised "boom") is observed `Processing` again after one more public
operation — `/process` accepts restarting a `Failed` job, refuting both "a
job observed Failed is never subsequently observed in any other state" and
"the only reachable transitions are Pending to Processing, Processing to
Completed, and Processing to Failed". -/
theorem c1_counterexample :
    statusAt c1TraceFail "j" = some .failed ∧
    statusAt (c1TraceFail ++ [c1Retry]) "j" = some .processing :=
  ⟨by decide, by decide⟩

/-- Jobs are never removed by the public operations: a job visible in the
registry stays visible after any step. -/
theorem get_job_isSome_applyStep (S : SysState) (st : Step) (id : String)
    (h : (S.mgr.get_job id).isSome = true) :
    (((applyStep S st).mgr.get_job id).isSome = true) := by
  cases st with
  | create id0 fi t =>
      by_cases hg : ((S.mgr.get_job id0).isSome ||
          (tasksGet S.tasks id0).isSome) = true
      · rwa [applyStep_create_stale hg]
      · rw [applyStep_create_fresh hg]
        dsimp only
        rw [get_job_create]
        by_cases hid : id = id0
        · rw [if_pos hid]
          rfl
        · rwa [if_neg hid]
  | startJob req eo no so t =>
      rcases process_pdf_spec S.mgr req t with ⟨hnd, heq⟩ |
        ⟨job, hj, _, _, hd, heq⟩
      · have hnd2 : ¬((process_pdf S.mgr req t).2.2 = true) := by
          rw [hnd]
          exact Bool.false_ne_true
        rw [applyStep_start_nodispatch hnd2]
        dsimp only
        rwa [heq]
      · rw [applyStep_start_dispatch hd]
        dsimp only
        rw [heq, get_job_dispatched S.mgr req t job hj]
        by_cases hid : id = req.job_id
        · rw [if_pos hid]
          rfl
        · rwa [if_neg hid]
  | bg id0 t =>
      cases htask0 : tasksGet S.tasks id0 with
      | none => rwa [applyStep_bg_none htask0]
      | some ops0 =>
          cases ops0 with
          | nil => rwa [applyStep_bg_nil htask0]
          | cons op rest =>
              rw [applyStep_bg_cons htask0]
              dsimp only
              by_cases hid : id = id0
              · subst hid
                cases op with
                | upd st2 p msg err =>
                    rw [get_job_applyOp_upd]
                    cases hmap : S.mgr.get_job id with
                    | none => rw [hmap] at h; cases h
                    | some j => rfl
                | setRes r =>
                    show ((S.mgr.set_job_results id r).get_job id).isSome
                      = true
                    rw [get_job_set_results, if_pos rfl]
                    cases hmap : S.mgr.get_job id with
                    | none => rw [hmap] at h; cases h
                    | some j => rfl
              · rwa [get_job_applyOp_other S.mgr id0 t op id hid]

theorem allowedTransition_completed {s : JobState}
    (h : allowedTransition .completed s) : s = .completed := by
  rcases h with h | ⟨h1, _⟩ | ⟨h1, _⟩ | ⟨h1, _⟩ | ⟨h1, _⟩
  · exact h.symm
  all_goals cases h1

/-- C1 amended: along every sequence of public operations, each job's
observed state only ever moves by stuttering, `Pending → Processing`,
`Processing → Completed`, `Processing → Failed`, or the retry transition
`Failed → Processing` (first conjunct); and a job observed `Completed` is
never subsequently observed in any other state, over any continuation of
the trace (second conjunct). -/
theorem c1_transition_safety :
    (∀ (tr : List Step) (st : Step) (id : String) (s₁ s₂ : JobState),
      statusAt tr id = some s₁ → statusAt (tr ++ [st]) id = some s₂ →
      allowedTransition s₁ s₂) ∧
    (∀ (tr rest : List Step) (id : String) (s : JobState),
      statusAt tr id = some .completed →
      statusAt (tr ++ rest) id = some s → s = .completed) := by
  have hstep : ∀ (tr : List Step) (st : Step) (id : String)
      (s₁ s₂ : JobState), statusAt tr id = some s₁ →
      statusAt (tr ++ [st]) id = some s₂ → allowedTransition s₁ s₂ := by
    intro tr st id s₁ s₂ h₁ h₂
    have hrun : runTrace (tr ++ [st]) = applyStep (runTrace tr) st :=
      runTrace_append_one tr st
    apply step_transition (runTrace tr) st (invC1_run tr) id s₁ s₂
    · exact h₁
    · unfold statusAt at h₂
      rwa [hrun] at h₂
  refine ⟨hstep, ?_⟩
  intro tr rest
  induction rest using List.reverseRecOn with
  | nil =>
      intro id s h₁ h₂
      rw [List.append_nil] at h₂
      rw [h₁] at h₂
      injection h₂ with h₂
      exact h₂.symm
  | append_singleton rest st ih =>
      intro id s h₁ h₂
      have hsome : ((runTrace (tr ++ rest)).mgr.get_job id).isSome = true := by
        have h0 : ((runTrace tr).mgr.get_job id).isSome = true := by
          unfold statusAt at h₁
          cases hmap : (runTrace tr).mgr.get_job id with
          | none => rw [hmap] at h₁; cases h₁
          | some j => rfl
        clear h₁ h₂ ih
        induction rest using List.reverseRecOn with
        | nil => rwa [List.append_nil]
        | append_singleton rest2 st2 ih2 =>
            rw [← List.append_assoc, runTrace_append_one]
            exact get_job_isSome_applyStep _ st2 id ih2
      rcases Option.isSome_iff_exists.mp hsome with ⟨j, hj⟩
      have hmid : statusAt (tr ++ rest) id = some j.status := by
        unfold statusAt
        rw [hj]
        rfl
      have hjs : j.status = .completed := ih id j.status h₁ hmid
      rw [hjs] at hmid
      have htr := hstep (tr ++ rest) st id .completed s hmid
        (by rwa [← List.append_assoc] at h₂)
      exact allowedTransition_completed htr

/-- C1 witness: the first transition of a fresh job, `Pending →
Processing`, certified through the transition-safety theorem. -/
theorem c1_witness : allowedTransition .pending .processing :=
  c1_transition_safety.1 c1WitnessBase c1WitnessStep "j" .pending .processing
    (by decide) (by decide)

/-! ### The C2 error-field invariants -/

theorem update_status_error_eq (j : Job) (st : JobState) (p : Option Int)
    (msg err : Option String) (t : Nat) :
    (j.update_status st p msg err t).error_message =
      if pyTruthyStr err = true then err else j.error_message := rfl

theorem update_status_status_eq (j : Job) (st : JobState) (p : Option Int)
    (msg err : Option String) (t : Nat) :
    (j.update_status st p msg err t).status = st := rfl

theorem invC2a_init : InvC2a initState := by
  constructor
  · intro id ops htask
    cases htask
  · intro id job hjob
    cases hjob

theorem invC2a_step (S : SysState) (st : Step) (h : InvC2a S)
    (hst : stepErrsOK st) : InvC2a (applyStep S st) := by
  cases st with
  | create id0 fi t =>
      by_cases hg : ((S.mgr.get_job id0).isSome ||
          (tasksGet S.tasks id0).isSome) = true
      · rw [applyStep_create_stale hg]
        exact h
      · rw [applyStep_create_fresh hg]
        constructor
        · intro id ops htask
          exact h.1 id ops htask
        · intro id job hjob hfail
          dsimp only at hjob
          rw [get_job_create] at hjob
          by_cases hid : id = id0
          · rw [if_pos hid] at hjob
            injection hjob with hjob
            rw [← hjob] at hfail
            cases hfail
          · rw [if_neg hid] at hjob
            exact h.2 id job hjob hfail
  | startJob req eo no so t =>
      rcases process_pdf_spec S.mgr req t with ⟨hnd, heq⟩ |
        ⟨job, hj, _, _, hd, heq⟩
      · have hnd' : ¬((process_pdf S.mgr req t).2.2 = true) := by
          rw [hnd]
          exact Bool.false_ne_true
        rw [applyStep_start_nodispatch hnd']
        constructor
        · intro id ops htask
          exact h.1 id ops htask
        · intro id job hjob hfail
          dsimp only at hjob
          rw [heq] at hjob
          exact h.2 id job hjob hfail
      · rw [applyStep_start_dispatch hd]
        constructor
        · intro id ops htask
          dsimp only at htask
          rw [tasksGet_tasksSet] at htask
          by_cases hid : id = req.job_id
          · rw [if_pos hid] at htask
            injection htask with hops
            subst hops
            exact opFailHasErr_mkScript _ _ _ _ _ _ hst.1 hst.2.1 hst.2.2
          · rw [if_neg hid] at htask
            exact h.1 id ops htask
        · intro id job' hjob hfail
          dsimp only at hjob
          rw [heq, get_job_dispatched S.mgr req t job hj] at hjob
          by_cases hid : id = req.job_id
          · rw [if_pos hid] at hjob
            injection hjob with hjob
            rw [← hjob] at hfail
            cases hfail
          · rw [if_neg hid] at hjob
            exact h.2 id job' hjob hfail
  | bg id0 t =>
      cases htask0 : tasksGet S.tasks id0 with
      | none =>
          rw [applyStep_bg_none htask0]
          exact h
      | some ops0 =>
          cases ops0 with
          | nil =>
              rw [applyStep_bg_nil htask0]
              exact h
          | cons op rest =>
              rw [applyStep_bg_cons htask0]
              constructor
              · intro id ops htask
                dsimp only at htask
                by_cases hrest : rest = []
                · rw [if_pos hrest, tasksGet_tasksRemove] at htask
                  by_cases hid : id = id0
                  · rw [if_pos hid] at htask
                    cases htask
                  · rw [if_neg hid] at htask
                    exact h.1 id ops htask
                · rw [if_neg hrest, tasksGet_tasksSet] at htask
                  by_cases hid : id = id0
                  · rw [if_pos hid] at htask
                    injection htask with hops
                    subst hops
                    intro op' hop'
                    exact h.1 id0 (op :: rest) htask0 op'
                      (List.mem_cons.mpr (Or.inr hop'))
                  · rw [if_neg hid] at htask
                    exact h.1 id ops htask
              · intro id job hjob hfail
                dsimp only at hjob
                by_cases hid : id = id0
                · subst hid
                  cases op with
                  | upd st' p msg err =>
                      rw [get_job_applyOp_upd] at hjob
                      rcases Option.map_eq_some'.mp hjob with ⟨j0, hj0, hupd⟩
                      rw [← hupd] at hfail
                      rw [update_status_status_eq] at hfail
                      have hferr := h.1 id (RegOp.upd st' p msg err :: rest)
                        htask0 (RegOp.upd st' p msg err)
                        (List.mem_cons_self _ _)
                      rcases hferr hfail with ⟨e, herr, hne⟩
                      refine ⟨e, ?_, hne⟩
                      rw [← hupd, update_status_error_eq, herr]
                      have htruthy : pyTruthyStr (some e) = true := by
                        simp [pyTruthyStr, hne]
                      rw [if_pos htruthy]
                  | setRes r =>
                      show ∃ e, job.error_message = some e ∧ ¬(e = "")
                      have hjob' : (S.mgr.set_job_results id r).get_job id
                          = some job := hjob
                      rw [get_job_set_results, if_pos rfl] at hjob'
                      rcases Option.map_eq_some'.mp hjob' with ⟨j0, hj0, hset⟩
                      have hst0 : j0.status = .failed := by
                        rw [← hset] at hfail
                        exact hfail
                      rcases h.2 id j0 hj0 hst0 with ⟨e, herr, hne⟩
                      refine ⟨e, ?_, hne⟩
                      rw [← hset]
                      exact herr
                · rw [get_job_applyOp_other S.mgr id0 t op id hid] at hjob
                  exact h.2 id job hjob hfail

theorem invC2a_run_aux (tr : List Step) (S : SysState) (h : InvC2a S)
    (herrs : ∀ st ∈ tr, stepErrsOK st) :
    InvC2a (tr.foldl applyStep S) := by
  induction tr generalizing S with
  | nil => exact h
  | cons st tr ih =>
      exact ih (applyStep S st)
        (invC2a_step S st h (herrs st (List.mem_cons_self _ _)))
        (fun st' hst' => herrs st' (List.mem_cons.mpr (Or.inr hst')))

theorem invC2a_run (tr : List Step) (herrs : ∀ st ∈ tr, stepErrsOK st) :
    InvC2a (runTrace tr) :=
  invC2a_run_aux tr initState invC2a_init herrs

theorem c2b_aux (tr : List Step) (id : String)
    (H : ∀ n, statusAt (tr.take n) id ≠ some .failed) :
    (∀ job, (runTrace tr).mgr.get_job id = some job →
      job.error_message = none) ∧
    (∀ ops, tasksGet (runTrace tr).tasks id = some ops →
      ∀ op ∈ ops, opErrOnlyFail op) := by
  induction tr using List.reverseRecOn with
  | nil =>
      constructor
      · intro job hjob
        cases hjob
      · intro ops htask
        cases htask
  | append_singleton tr st ih =>
      have H' : ∀ n, statusAt (tr.take n) id ≠ some .failed := by
        intro n
        by_cases hn : n ≤ tr.length
        · have := H n
          rwa [List.take_append_of_le_length hn] at this
        · have := H tr.length
          rw [List.take_append_of_le_length le_rfl, List.take_length] at this
          rwa [List.take_of_length_le (by omega)]
      have Hfull : statusAt (tr ++ [st]) id ≠ some .failed := by
        have := H (tr.length + 1)
        rwa [List.take_of_length_le (by simp)] at this
      have ihr := ih H'
      have hrun : runTrace (tr ++ [st]) = applyStep (runTrace tr) st :=
        runTrace_append_one tr st
      rw [hrun]
      have HfullS : ((applyStep (runTrace tr) st).mgr.get_job id).map
          Job.status ≠ some .failed := by
        unfold statusAt at Hfull
        rwa [hrun] at Hfull
      set S := runTrace tr with hS
      cases st with
      | create id0 fi t =>
          by_cases hg : ((S.mgr.get_job id0).isSome ||
              (tasksGet S.tasks id0).isSome) = true
          · rw [applyStep_create_stale hg]
            exact ihr
          · rw [applyStep_create_fresh hg]
            constructor
            · intro job hjob
              dsimp only at hjob
              rw [get_job_create] at hjob
              by_cases hid : id = id0
              · rw [if_pos hid] at hjob
                injection hjob with hjob
                rw [← hjob]
                rfl
              · rw [if_neg hid] at hjob
                exact ihr.1 job hjob
            · intro ops htask
              exact ihr.2 ops htask
      | startJob req eo no so t =>
          rcases process_pdf_spec S.mgr req t with ⟨hnd, heq⟩ |
            ⟨job0, hj, _, _, hd, heq⟩
          · have hnd' : ¬((process_pdf S.mgr req t).2.2 = true) := by
              rw [hnd]
              exact Bool.false_ne_true
            rw [applyStep_start_nodispatch hnd']
            constructor
            · intro job hjob
              dsimp only at hjob
              rw [heq] at hjob
              exact ihr.1 job hjob
            · intro ops htask
              exact ihr.2 ops htask
          · rw [applyStep_start_dispatch hd]
            constructor
            · intro job hjob
              dsimp only at hjob
              rw [heq, get_job_dispatched S.mgr req t job0 hj] at hjob
              by_cases hid : id = req.job_id
              · rw [if_pos hid] at hjob
                injection hjob with hjob
                rw [← hjob, update_status_error_eq]
                have : pyTruthyStr none = false := rfl
                rw [if_neg (by rw [this]; exact Bool.false_ne_true)]
                have hje : job0.error_message = none := by
                  apply ihr.1
                  rw [← hid] at hj
                  exact hj
                exact hje
              · rw [if_neg hid] at hjob
                exact ihr.1 job hjob
            · intro ops htask
              dsimp only at htask
              rw [tasksGet_tasksSet] at htask
              by_cases hid : id = req.job_id
              · rw [if_pos hid] at htask
                injection htask with hops
                subst hops
                exact opErrOnlyFail_mkScript _ _ _ _ _ _
              · rw [if_neg hid] at htask
                exact ihr.2 ops htask
      | bg id0 t =>
          cases htask0 : tasksGet S.tasks id0 with
          | none =>
              rw [applyStep_bg_none htask0]
              exact ihr
          | some ops0 =>
              cases ops0 with
              | nil =>
                  rw [applyStep_bg_nil htask0]
                  exact ihr
              | cons op rest =>
                  rw [applyStep_bg_cons htask0] at HfullS ⊢
                  constructor
                  · intro job hjob
                    dsimp only at hjob
                    by_cases hid : id = id0
                    · subst hid
                      cases op with
                      | upd st' p msg err =>
                          rw [get_job_applyOp_upd] at hjob
                          rcases Option.map_eq_some'.mp hjob with
                            ⟨j0, hj0, hupd⟩
                          have hj0err : j0.error_message = none :=
                            ihr.1 j0 hj0
                          by_cases htruthy : pyTruthyStr err = true
                          · exfalso
                            rcases err with _ | e
                            · exact Bool.false_ne_true htruthy
                            · have hof := ihr.2
                                (RegOp.upd st' p msg (some e) :: rest)
                                htask0 (RegOp.upd st' p msg (some e))
                                (List.mem_cons_self _ _)
                              have hst' : st' = .failed := hof e rfl
                              apply HfullS
                              dsimp only
                              rw [get_job_applyOp_upd, hj0]
                              show some ((j0.update_status st' p msg
                                (some e) t).status) = some .failed
                              rw [update_status_status_eq, hst']
                          · rw [← hupd, update_status_error_eq,
                              if_neg htruthy]
                            exact hj0err
                      | setRes r =>
                          have hjob' : (S.mgr.set_job_results id r).get_job
                              id = some job := hjob
                          rw [get_job_set_results, if_pos rfl] at hjob'
                          rcases Option.map_eq_some'.mp hjob' with
                            ⟨j0, hj0, hset⟩
                          rw [← hset]
                          exact ihr.1 j0 hj0
                    · rw [get_job_applyOp_other S.mgr id0 t op id hid]
                        at hjob
                      exact ihr.1 job hjob
                  · intro ops htask
                    dsimp only at htask
                    by_cases hrest : rest = []
                    · rw [if_pos hrest, tasksGet_tasksRemove] at htask
                      by_cases hid : id = id0
                      · rw [if_pos hid] at htask
                        cases htask
                      · rw [if_neg hid] at htask
                        exact ihr.2 ops htask
                    · rw [if_neg hrest, tasksGet_tasksSet] at htask
                      by_cases hid : id = id0
                      · rw [if_pos hid] at htask
                        injection htask with hops
                        subst hops
                        intro op' hop'
                        exact ihr.2 (op :: rest) (hid ▸ htask0) op'
                          (List.mem_cons.mpr (Or.inr hop'))
                      · rw [if_neg hid] at htask
                        exact ihr.2 ops htask

/-! ### C2 — error-message consistency -/

/-- C2 counterexample: fail a job with error "boom", restart it (allowed),
let the retry succeed — the job ends `Completed` while still carrying the
stale error message "boom", because `update_status` never clears
`error_message`; this refutes "a Completed job carries no error
message". -/
theorem c2_counterexample :
    ((runTrace c2Trace).mgr.get_job "j").map
        (fun j => (j.status, j.error_message)) =
      some (.completed, some "boom") := by decide

/-- C2 amended: for every job reachable through the public operations,
(1) provided every pipeline failure reports a non-empty message (`str(e)`
of the raised exception), a `Failed` job carries a present, non-empty error
message; and (2) a `Completed` job carries no error message provided the
job was never observed `Failed` at any earlier point of the trace (a failed
and retried job keeps its stale error message). -/
theorem c2_error_message_consistency (tr : List Step) (id : String)
    (job : Job) (h : (runTrace tr).mgr.get_job id = some job) :
    ((∀ st ∈ tr, stepErrsOK st) → job.status = .failed →
      ∃ e, job.error_message = some e ∧ ¬(e = "")) ∧
    ((∀ n, statusAt (tr.take n) id ≠ some .failed) →
      job.status = .completed → job.error_message = none) := by
  constructor
  · intro herrs hf
    exact (invC2a_run tr herrs).2 id job h hf
  · intro H _
    exact (c2b_aux tr id H).1 job h

/-- C2 witness: the clean fail-free run ends `Completed` with no error
message. -/
theorem c2_witness : c2CleanJob.error_message = none := by
  have h := c2_error_message_consistency c2CleanTrace "j" c2CleanJob
    (by decide)
  refine h.2 ?_ (by decide)
  intro n
  match n with
  | 0 => decide
  | 1 => decide
  | 2 => decide
  | 3 => decide
  | 4 => decide
  | 5 => decide
  | 6 => decide
  | (m + 7) =>
      rw [List.take_of_length_le (show c2CleanTrace.length ≤ m + 7 by
        have h7 : c2CleanTrace.length = 7 := by decide
        omega)]
      decide
